import Mathlib

/-
Verification of the Pisuke compiler (linkalls/Pisuke_lang) against its
natural-language specification.

Shallow embedding notes:
  * The AST mirrors pisuke/ast (ast.go): mutually recursive Expr/Stmt,
    plus TypeDef/Field for `type Name = { ... }` definitions.
  * Go `map[Expression]Expression` literal pairs are modelled as an
    association list in source order; Go map iteration order is
    unspecified, and where the Go code's observable behaviour depends on
    it (registry enumeration during inference, map-literal rendering)
    this embedding fixes insertion order as the determinization.
  * Diagnostics, produced in Go via fmt.Sprintf, are modelled by the
    inductive `Diag` carrying exactly the format arguments; `renderDiag`
    reproduces the formatted message text.
-/

namespace Pisuke

mutual

/-- TypeDefinition: name plus ordered field list (ast.go). -/
inductive TypeDef : Type where
  | mk : String → List Field → TypeDef
  deriving Repr

/-- Field of a type definition: name, primitive type name, optional
nested TypeDefinition (ast.go `Field`). -/
inductive Field : Type where
  | mk : String → String → Option TypeDef → Field
  deriving Repr

end

def TypeDef.tname : TypeDef → String
  | .mk n _ => n

def TypeDef.fields : TypeDef → List Field
  | .mk _ fs => fs

def Field.fname : Field → String
  | .mk n _ _ => n

def Field.ftype : Field → String
  | .mk _ t _ => t

def Field.nested : Field → Option TypeDef
  | .mk _ _ o => o

mutual

/-- Expression variants of the Pisuke AST (ast.go). Map-literal pairs are
kept in source order (Go stores them in a map with unspecified iteration
order). `funcLit` carries optional name, ordered parameters, the
ParamTypes map (assoc list), declared return type and the body block. -/
inductive Expr : Type where
  | ident (v : String)
  | intLit (v : Int)
  | strLit (v : String)
  | listLit (elems : List Expr)
  | mapLit (pairs : List (Expr × Expr))
  | indexE (left index : Expr)
  | member (obj : Expr) (prop : String)
  | infixE (op : String) (left right : Expr)
  | funcLit (fname : Option String) (params : List String)
      (paramTypes : List (String × String)) (retType : String)
      (body : List Stmt)
  | callE (fn : Expr) (args : List Expr)
  deriving Repr

/-- Statement variants of the Pisuke AST (ast.go). `letS`/`constS` carry
the optional declared type name (empty string = no annotation, as in Go). -/
inductive Stmt : Type where
  | letS (name : String) (typeName : String) (value : Expr)
  | constS (name : String) (typeName : String) (value : Expr)
  | returnS (value : Expr)
  | exprS (e : Expr)
  | typeDefS (td : TypeDef)
  | blockS (stmts : List Stmt)
  deriving Repr

end

/-- A checker diagnostic, carrying the fmt.Sprintf arguments of the
corresponding message in typecheck.go. -/
inductive Diag : Type where
  | missingField (path fname : String)
  | expectedNested (path fname : String)
  | typeMismatch (path fname expected actual : String)
  | unknownType (tname : String)
  | unknownField (ctx fname tname : String)
  | arity (ctx fname : String) (expected actual : Nat)
  | argShouldBe (ctx : String) (i : Nat) (fname ptyp : String)
  | argExpectedGot (ctx : String) (i : Nat) (fname ptyp vt : String)
  deriving Repr, DecidableEq

/-- The message text each diagnostic renders to (the fmt.Sprintf format
strings of typecheck.go). -/
def renderDiag : Diag → String
  | .missingField p f => p ++ ": missing field \x27" ++ f ++ "\x27"
  | .expectedNested p f => p ++ "." ++ f ++ ": expected nested object"
  | .typeMismatch p f exp act =>
      p ++ "." ++ f ++ ": type mismatch, expected " ++ exp ++ " got " ++ act
  | .unknownType t => "unknown type: " ++ t
  | .unknownField ctx f t =>
      ctx ++ ": unknown field \x27" ++ f ++ "\x27 on type " ++ t
  | .arity ctx f exp act =>
      ctx ++ ": function " ++ f ++ " expects " ++ toString exp ++
        " args, got " ++ toString act
  | .argShouldBe ctx i f p =>
      ctx ++ ": arg " ++ toString i ++ " for " ++ f ++ " should be " ++ p
  | .argExpectedGot ctx i f p vt =>
      ctx ++ ": arg " ++ toString i ++ " for " ++ f ++ ": expected " ++
        p ++ " got " ++ vt

/-- Go-map style association-list update: overwrite the entry if the key
exists, append otherwise (models `m[k] = v` on a Go map, with insertion
order standing in for Go's unspecified enumeration order). -/
def updA {α : Type} (m : List (String × α)) (k : String) (v : α) :
    List (String × α) :=
  match m with
  | [] => [(k, v)]
  | (k0, v0) :: rest =>
      if k0 = k then (k0, v) :: rest else (k0, v0) :: updA rest k v

/-- Association-list lookup (models Go map indexing `m[k]`, `ok` form). -/
def lookA {α : Type} (m : List (String × α)) (k : String) : Option α :=
  match m with
  | [] => none
  | (k0, v0) :: rest => if k0 = k then some v0 else lookA rest k

/-- The key name under which a map-literal key participates in checking:
string-literal keys and bare-identifier keys contribute their text, any
other key expression is skipped (typecheck.go lines 104-109 and 67-78). -/
def keyName : Expr → Option String
  | .strLit s => some s
  | .ident s => some s
  | _ => none

/-- The `provided` map checkMapAgainstType builds from a map literal's
pairs: name → value, later pairs overwriting earlier ones. -/
def providedOf (prs : List (Expr × Expr)) : List (String × Expr) :=
  prs.foldl
    (fun acc p =>
      match keyName p.1 with
      | some k => updA acc k p.2
      | none => acc)
    []

mutual

/-- checkMapAgainstType (typecheck.go lines 100-142): validate a map
literal's pairs against a type definition, appending diagnostics in
field-declaration order. -/
def checkMapAgainstType (prs : List (Expr × Expr)) (td : TypeDef)
    (path : String) : List Diag :=
  match td with
  | .mk _ fields => checkFields (providedOf prs) fields path

/-- The per-field loop of checkMapAgainstType over `td.Fields`. -/
def checkFields (provided : List (String × Expr))
    (fields : List Field) (path : String) : List Diag :=
  match fields with
  | [] => []
  | .mk fname ftype nestedTd :: rest =>
      (match lookA provided fname with
       | none => [Diag.missingField path fname]
       | some pv =>
         match nestedTd with
         | some ntd =>
             (match pv with
              | .mapLit nprs => checkMapAgainstType nprs ntd (path ++ "." ++ fname)
              | _ => [Diag.expectedNested path fname])
         | none =>
             (match pv with
              | .intLit _ =>
                  if ftype ≠ "int" then
                    [Diag.typeMismatch path fname ftype "int"]
                  else []
              | .strLit _ =>
                  if ftype ≠ "string" then
                    [Diag.typeMismatch path fname ftype "string"]
                  else []
              | _ => []))
      ++ checkFields provided rest path

end

/-- A registered function signature (typecheck.go funcSigs entries):
ordered parameter names, the ParamTypes map, declared return type. -/
structure FuncSig : Type where
  paramOrder : List String
  params : List (String × String)
  ret : String
  deriving Repr, DecidableEq

/-- First pass of CheckProgram (typecheck.go lines 19-49): collect the
name→TypeDefinition registry and the name→signature registry. A named
function literal bound by `let` or standing as an expression statement is
registered under the literal's own name. -/
def collectRegistries (stmts : List Stmt) :
    List (String × TypeDef) × List (String × FuncSig) :=
  stmts.foldl
    (fun acc s =>
      match s with
      | .typeDefS td => (updA acc.1 td.tname td, acc.2)
      | .letS _ _ (.funcLit (some fn) params ptypes ret _) =>
          (acc.1, updA acc.2 fn ⟨params, ptypes, ret⟩)
      | .exprS (.funcLit (some fn) params ptypes ret _) =>
          (acc.1, updA acc.2 fn ⟨params, ptypes, ret⟩)
      | _ => acc)
    ([], [])

/-- Whether a map literal's keys include every declared field name of a
type definition (the inference match of typecheck.go lines 62-89). -/
def fieldsAllPresent (td : TypeDef) (prs : List (Expr × Expr)) : Bool :=
  td.fields.all (fun f => prs.any (fun p => keyName p.1 == some f.fname))

/-- Scan the type registry for the first definition whose declared field
names are all present among the literal's keys. Go enumerates the
registry map in unspecified order; insertion order is the
determinization used here (the spec flags this nondeterminism). -/
def firstMatchingType (tds : List (String × TypeDef))
    (prs : List (Expr × Expr)) : Option String :=
  match tds with
  | [] => none
  | (tname, td) :: rest =>
      if fieldsAllPresent td prs then some tname
      else firstMatchingType rest prs

/-- Second pass of CheckProgram (typecheck.go lines 51-97): collect
variable types from annotations, inferring unannotated let-bound map
literals by field-name matching. -/
def buildVarTypes (tds : List (String × TypeDef)) (stmts : List Stmt) :
    List (String × String) :=
  stmts.foldl
    (fun vts s =>
      match s with
      | .letS name typeName value =>
          let vts1 := if typeName ≠ "" then updA vts name typeName else vts
          if typeName = "" then
            match value with
            | .mapLit prs =>
                (match firstMatchingType tds prs with
                 | some tname => updA vts1 name tname
                 | none => vts1)
            | _ => vts1
          else vts1
      | .constS name typeName _ =>
          if typeName ≠ "" then updA vts name typeName else vts
      | _ => vts)
    []

/-- Validation pass of CheckProgram (typecheck.go lines 144-170): each
annotated let/const is checked — unknown annotation name yields one
diagnostic, a map-literal value is validated against the definition. -/
def validateStmts (tds : List (String × TypeDef)) (stmts : List Stmt) :
    List Diag :=
  match stmts with
  | [] => []
  | s :: rest =>
      (match s with
       | .letS name typeName value =>
           if typeName ≠ "" then
             match lookA tds typeName with
             | none => [Diag.unknownType typeName]
             | some td =>
                 (match value with
                  | .mapLit prs => checkMapAgainstType prs td name
                  | _ => [])
           else []
       | .constS name typeName value =>
           if typeName ≠ "" then
             match lookA tds typeName with
             | none => [Diag.unknownType typeName]
             | some td =>
                 (match value with
                  | .mapLit prs => checkMapAgainstType prs td name
                  | _ => [])
           else []
       | _ => [])
      ++ validateStmts tds rest

/-- The per-argument loop of the call check (typecheck.go lines
204-223): literal-kind arguments are compared with the parameter's
declared type, identifier arguments with the variable-type registry. A
parameter name absent from ParamTypes reads as the empty string (Go map
zero value). -/
def argChecks (vts : List (String × String)) (ctx fname : String)
    (paramsMap : List (String × String)) (i : Nat)
    (paramNames : List String) (args : List Expr) : List Diag :=
  match paramNames, args with
  | pn :: pns, a :: rest =>
      let ptyp := (lookA paramsMap pn).getD ""
      (match a with
       | .intLit _ =>
           if ptyp ≠ "int" then [Diag.argShouldBe ctx i fname ptyp] else []
       | .strLit _ =>
           if ptyp ≠ "string" then [Diag.argShouldBe ctx i fname ptyp] else []
       | .ident v =>
           (match lookA vts v with
            | some vt =>
                if vt ≠ ptyp then [Diag.argExpectedGot ctx i fname ptyp vt]
                else []
            | none => [])
       | _ => [])
      ++ argChecks vts ctx fname paramsMap (i + 1) pns rest
  | _, _ => []

mutual

/-- checkExpr (typecheck.go lines 173-245): the expression traversal.
Member accesses on an identifier of known registered type are checked
for field existence; calls on an identifier with a known signature are
checked for arity and argument kinds; index expressions recurse into the
indexed object only; function-literal bodies are traversed only at their
expression statements. -/
def checkExpr (tds : List (String × TypeDef)) (fsigs : List (String × FuncSig))
    (vts : List (String × String)) (e : Expr) (ctx : String) : List Diag :=
  match e with
  | .member obj prop =>
      (match obj with
       | .ident v =>
           (match lookA vts v with
            | some vt =>
                (match lookA tds vt with
                 | some td =>
                     if td.fields.any (fun f => f.fname == prop) then []
                     else [Diag.unknownField ctx prop vt]
                 | none => [])
            | none => [])
       | _ => [])
      ++ checkExpr tds fsigs vts obj ctx
  | .callE fn args =>
      (match fn with
       | .ident v =>
           (match lookA fsigs v with
            | some sig =>
                if args.length ≠ sig.paramOrder.length then
                  [Diag.arity ctx v sig.paramOrder.length args.length]
                else argChecks vts ctx v sig.params 0 sig.paramOrder args
            | none => [])
       | _ => [])
      ++ checkExpr tds fsigs vts fn ctx
      ++ checkExprList tds fsigs vts args ctx
  | .indexE l _ => checkExpr tds fsigs vts l ctx
  | .infixE _ l r =>
      checkExpr tds fsigs vts l ctx ++ checkExpr tds fsigs vts r ctx
  | .funcLit _ _ _ _ body => checkBodyStmts tds fsigs vts body ctx
  | _ => []

/-- The argument recursion of checkExpr's CallExpression case. -/
def checkExprList (tds : List (String × TypeDef))
    (fsigs : List (String × FuncSig)) (vts : List (String × String))
    (args : List Expr) (ctx : String) : List Diag :=
  match args with
  | [] => []
  | a :: rest =>
      checkExpr tds fsigs vts a ctx ++ checkExprList tds fsigs vts rest ctx

/-- The FunctionLiteral body loop of checkExpr: only expression
statements inside the body are visited. -/
def checkBodyStmts (tds : List (String × TypeDef))
    (fsigs : List (String × FuncSig)) (vts : List (String × String))
    (body : List Stmt) (ctx : String) : List Diag :=
  match body with
  | [] => []
  | .exprS e :: rest =>
      checkExpr tds fsigs vts e ctx ++ checkBodyStmts tds fsigs vts rest ctx
  | _ :: rest => checkBodyStmts tds fsigs vts rest ctx

end

/-- Final pass of CheckProgram (typecheck.go lines 247-256): traverse the
expressions of top-level expression statements and of let/const values. -/
def traverseStmts (tds : List (String × TypeDef))
    (fsigs : List (String × FuncSig)) (vts : List (String × String))
    (stmts : List Stmt) : List Diag :=
  match stmts with
  | [] => []
  | s :: rest =>
      (match s with
       | .exprS e => checkExpr tds fsigs vts e "<expr>"
       | .letS name _ v => checkExpr tds fsigs vts v name
       | .constS name _ v => checkExpr tds fsigs vts v name
       | _ => [])
      ++ traverseStmts tds fsigs vts rest

/-- CheckProgram (typecheck.go lines 9-259): registries, variable types,
annotated-assignment validation, then expression traversal; the
diagnostics list is the concatenation in pass order. -/
def CheckProgram (stmts : List Stmt) : List Diag :=
  let regs := collectRegistries stmts
  let vts := buildVarTypes regs.1 stmts
  validateStmts regs.1 stmts ++ traverseStmts regs.1 regs.2 vts stmts

/-- Drop every pair of a map literal whose key names a given field (used
to state the missing-field claims: removing one declared field from a
literal). -/
def removeField (f : String) (prs : List (Expr × Expr)) : List (Expr × Expr) :=
  prs.filter (fun p => !(keyName p.1 == some f))

/-- The assignment-path component a structural diagnostic carries (the
first Sprintf argument of the three checkMapAgainstType messages). -/
def diagPath : Diag → String
  | .missingField p _ => p
  | .expectedNested p _ => p
  | .typeMismatch p _ _ _ => p
  | _ => ""

/-- The field-name component a structural diagnostic carries. -/
def diagFieldName : Diag → String
  | .missingField _ f => f
  | .expectedNested _ f => f
  | .typeMismatch _ f _ _ => f
  | _ => ""

mutual

/-- All field names a type definition declares, at the top level and
inside nested definitions. -/
def allFieldNames : TypeDef → List String
  | .mk _ fields => allFieldNamesF fields

/-- Field names declared by a field list, nested definitions included. -/
def allFieldNamesF : List Field → List String
  | [] => []
  | .mk fn _ (some ntd) :: rest => fn :: (allFieldNames ntd ++ allFieldNamesF rest)
  | .mk fn _ none :: rest => fn :: allFieldNamesF rest

end

/-- The expression a statement exposes to the checker's traversal when it
occurs inside a function-literal body: only expression statements do. -/
def stmtTopExpr : Stmt → Option Expr
  | .exprS e => some e
  | _ => none

/-! ### Kernel-reducible string primitives

Replacements for the Go strings/filepath helpers, recursing structurally
over the character list so concrete evaluation works by `decide`. -/

/-- strings.Split on a single-character separator, over char lists. -/
def splitChar (c : Char) : List Char → List (List Char)
  | [] => [[]]
  | x :: xs =>
      let r := splitChar c xs
      if x = c then [] :: r
      else
        match r with
        | [] => [[x]]
        | h :: t => (x :: h) :: t

/-- strings.Split s (String.singleton c) as strings. -/
def strSplit (s : String) (c : Char) : List String :=
  (splitChar c s.data).map String.mk

/-- strings.Join / String.intercalate. -/
def joinSep (sep : String) : List String → String
  | [] => ""
  | [x] => x
  | x :: xs => x ++ sep ++ joinSep sep xs

/-- strings.HasPrefix s pre. -/
def strHasPre (s pre : String) : Bool := pre.data.isPrefixOf s.data

/-- strings.HasSuffix s suf. -/
def strHasSuf (s suf : String) : Bool := suf.data.isSuffixOf s.data

/-- strings.Trim s cutset for a single-character cutset: remove all
leading and trailing occurrences of the character. -/
def trimChar (s : String) (c : Char) : String :=
  String.mk (((s.data.dropWhile (· == c)).reverse.dropWhile (· == c)).reverse)

/-! ### Import inliner (cmd/pisuke/main.go)

The preprocessor scans raw text for `import \x7b names \x7d from "path"`
directives. Text is modelled as a list of pieces: opaque text chunks and
directives (a maximal non-directive chunk cannot itself contain a
directive occurrence). `strings.Replace(result, m[0], new, -1)` replaces
every occurrence of the directive's exact text, which at the piece level
is every directive piece equal to it. The file system is an association
list from (absolute) path to file content; `filepath.Abs` is the
identity on the already-absolute paths used here. -/

/-- One `import \x7b ... \x7d from "path"` directive: the bound-name list
text (syntactically accepted, behaviourally inert) and the module path.
Two directives are the same match text iff they are equal. -/
structure Directive : Type where
  names : String
  path : String
  deriving Repr, DecidableEq

/-- A fragment of source text: an opaque chunk or an import directive. -/
inductive Piece : Type where
  | text (s : String)
  | imp (d : Directive)
  deriving Repr, DecidableEq

/-- A file system: absolute path → file content (as pieces). -/
abbrev FileSys := List (String × List Piece)

/-- filepath.IsAbs for slash paths. -/
def isAbsPath (p : String) : Bool := strHasPre p "/"

/-- filepath.Join of a directory and a relative path (simplified to
slash concatenation, adequate for the clean paths used here). -/
def joinPath (dir p : String) : String := dir ++ "/" ++ p

/-- filepath.Dir (simplified): everything before the last slash. -/
def dirOf (p : String) : String :=
  let parts := strSplit p '/'
  if parts.length ≤ 1 then "."
  else
    let front := parts.dropLast
    if front = [""] then "/" else joinSep "/" front

/-- Module path resolution (main.go lines 177-192): try
`baseDir/modulePath.psk` (or `modulePath.psk` if absolute); if that file
does not exist, fall back to the module path itself with a `.psk`
suffix ensured. -/
def resolveModule (fs : FileSys) (baseDir modulePath : String) : String :=
  let candidate :=
    if isAbsPath modulePath then modulePath ++ ".psk"
    else joinPath baseDir (modulePath ++ ".psk")
  if (lookA fs candidate).isNone then
    if strHasSuf modulePath ".psk" then modulePath else modulePath ++ ".psk"
  else candidate

/-- strings.Replace with count -1 at the piece level: every directive
piece equal to `d` is replaced by `repl`. -/
def replaceImp (result : List Piece) (d : Directive) (repl : List Piece) :
    List Piece :=
  result.flatMap
    (fun pc =>
      match pc with
      | .imp d2 => if d2 = d then repl else [pc]
      | .text s => [.text s])

/-- The traceability block spliced in place of a first-encounter
directive (main.go line 217). -/
def inlinedBlock (modulePath : String) (inlined : List Piece) : List Piece :=
  Piece.text ("\n// begin inlined module: " ++ modulePath ++ "\n")
    :: inlined
    ++ [Piece.text ("\n// end inlined module: " ++ modulePath ++ "\n")]

/-- resolveImportsRecursive (main.go lines 166-220): find all directive
matches in the content, then process them in order, threading the
evolving result text and the shared visited set (the Go loop over
`matches`). A visited module's directive is replaced by nothing; a
fresh one is read, marked visited, recursively resolved, and its block
spliced in at every occurrence of the same directive text (as
strings.Replace with count -1 does). `none` models an I/O error return
(or fuel exhaustion of the embedding). -/
def resolveImportsRecursive : Nat → FileSys → String → List Piece →
    List String → Option (List Piece × List String)
  | 0, _, _, _, _ => none
  | fuel + 1, fs, baseDir, content, visited =>
      let ms := content.filterMap
        (fun pc => match pc with | .imp d => some d | .text _ => none)
      ms.foldl
        (fun acc d =>
          match acc with
          | none => none
          | some (result, vis) =>
              let abs := resolveModule fs baseDir d.path
              if vis.contains abs then some (replaceImp result d [], vis)
              else
                match lookA fs abs with
                | none => none
                | some data =>
                    match resolveImportsRecursive fuel fs (dirOf abs) data
                        (abs :: vis) with
                    | none => none
                    | some (inlined, vis2) =>
                        some (replaceImp result d (inlinedBlock d.path inlined),
                          vis2))
        (some (content, visited))

/-- preprocessImports (main.go lines 157-161): empty visited set, base
directory of the entry file. -/
def preprocessImports (fuel : Nat) (fs : FileSys) (entryFile : String)
    (content : List Piece) : Option (List Piece × List String) :=
  resolveImportsRecursive fuel fs (dirOf entryFile) content []

/-! ### Code generator (codegen, src/unnamed/part_003)

The generator is a stateful emitter over a byte buffer. The embedding
threads an explicit state `CG` (indent level, capability flags, the
variable-type and type-definition registries) and returns the text each
call appends to the active buffer; `captureExpression`'s save/redirect/
capture/restore buffer discipline then coincides with returning the
generated text, so it needs no separate definition. Go panics (index
out of range on `node.Arguments`, the failed `*ast.FunctionLiteral`
type assertion) are modelled by `GRes.crash`; `GRes.fuelOut` is an
artifact of the fuel-based embedding of the recursion, never an
outcome of the Go code. Go map iteration (literal pairs, before the
deterministic sort) uses source order, and Go's unstable sort.Slice is
a stable insertion sort here — both determinizations of unspecified Go
behaviour. -/

/-- Result of a generator step: produced value, Go panic, or fuel
exhaustion of the embedding. -/
inductive GRes (α : Type) where
  | ok (a : α)
  | crash
  | fuelOut
  deriving Repr

instance : Monad GRes where
  pure := .ok
  bind m f :=
    match m with
    | .ok a => f a
    | .crash => .crash
    | .fuelOut => .fuelOut

/-- The generated text of a successful generator step. -/
def GRes.strPart : GRes (String × CGen) → Option String
  | .ok (s, _) => some s
  | _ => none

/-- Whether a generator step ended in a Go panic. -/
def GRes.isCrash {α : Type} : GRes α → Bool
  | .crash => true
  | _ => false

/-- Whether a generator step produced a value. -/
def GRes.isOk {α : Type} : GRes α → Bool
  | .ok _ => true
  | _ => false

/-- Generator state (the Generator struct of part_003 minus the byte
buffer, which the embedding replaces by returned text). -/
structure CGen : Type where
  indentlevel : Nat
  requiresHttp : Bool
  requiresLog : Bool
  requiresFmt : Bool
  requiresMiddleware : Bool
  requiresJson : Bool
  requiresIo : Bool
  requiresStrings : Bool
  variableTypes : List (String × String)
  typeDefs : List (String × TypeDef)
  deriving Repr

/-- NewGenerator() with a chosen indent level (the Go code sets
`indentlevel` right after construction wherever it is nonzero). -/
def newGenerator (ind : Nat) : CGen :=
  ⟨ind, false, false, false, false, false, false, false, [], []⟩

/-- capitalizeFirst (ASCII: Go upcases the first byte). -/
def capFirst (s : String) : String :=
  match s.data with
  | [] => ""
  | c :: cs => String.mk (c.toUpper :: cs)

/-- mapTypeToGo. -/
def mapTypeToGo (t : String) : String :=
  match t with
  | "int" => "int"
  | "string" => "string"
  | _ => "interface\x7b\x7d"

/-- strings.Repeat("\t", n): the indent prefix. -/
def tabs (n : Nat) : String := String.mk (List.replicate n '\t')

/-- s[1:] (ASCII). -/
def strTail (s : String) : String := String.mk s.data.tail

/-- strings.Contains s (String.singleton c). -/
def strContains (s : String) (c : Char) : Bool := s.data.contains c

/-- resolveStructInfo (part_003 lines 693-719): whether an expression
denotes a struct value, and its type name when named. -/
def resolveStructInfo (g : CGen) : Expr → Bool × String
  | .ident v =>
      (match lookA g.variableTypes v with
       | some t => if t ≠ "" then (true, t) else (false, "")
       | none => (false, ""))
  | .member obj prop =>
      (match resolveStructInfo g obj with
       | (true, tname) =>
           (match lookA g.typeDefs tname with
            | some td =>
                (match td.fields.find? (fun f => f.fname == prop) with
                 | some f =>
                     (match f.nested with
                      | some _ => (true, "")
                      | none => (false, ""))
                 | none => (false, ""))
            | none => (false, ""))
       | (false, _) => (false, ""))
  | _ => (false, "")

/-- Lexicographic order on char lists by code point (Go's byte-wise
string comparison agrees with code-point order on valid UTF-8). -/
def charsLt : List Char → List Char → Bool
  | [], [] => false
  | [], _ :: _ => true
  | _ :: _, [] => false
  | a :: as, b :: bs =>
      if a.toNat < b.toNat then true
      else if b.toNat < a.toNat then false
      else charsLt as bs

/-- Go string `<`. -/
def strLtB (a b : String) : Bool := charsLt a.data b.data

/-- Insertion into a key-sorted pair list (stable stand-in for Go's
unstable sort.Slice with a strict key comparison). -/
def insertByKey (p : String × Expr) : List (String × Expr) → List (String × Expr)
  | [] => [p]
  | q :: qs => if strLtB p.1 q.1 then p :: q :: qs else q :: insertByKey p qs

/-- The deterministic key sort of genLetStatement. -/
def sortByKey (l : List (String × Expr)) : List (String × Expr) :=
  l.foldl (fun acc p => insertByKey p acc) []

/-- Same, for the already-captured pairs of genConstStatement. -/
def insertByKeyS (p : String × String) : List (String × String) → List (String × String)
  | [] => [p]
  | q :: qs => if strLtB p.1 q.1 then p :: q :: qs else q :: insertByKeyS p qs

def sortByKeyS (l : List (String × String)) : List (String × String) :=
  l.foldl (fun acc p => insertByKeyS p acc) []

/-- The Go-map build `kv[p.key] = p.valExpr` over a keyed pair list. -/
def buildKV (l : List (String × Expr)) : List (String × Expr) :=
  l.foldl (fun acc p => updA acc p.1 p.2) []

/-- The normalized template segments of a route path
(strings.Split(strings.Trim(pathStr, "/"), "/"), part_003 line 554). -/
def routeParts (pathStr : String) : List String :=
  strSplit (trimChar pathStr '/') '/'

/-- The `:name` parameter names of the template segments. -/
def routeParamNames (parts : List String) : List String :=
  parts.filterMap
    (fun p => if strHasPre p ":" then some (strTail p) else none)

/-- The registration-pattern prefix for a dynamic path (part_003 lines
562-589): the index of the first `:`-segment (-1 when none, as in Go);
if positive, the nonempty segments before it joined with slashes and
wrapped in slashes, else "/". -/
def routeRegPrefix (parts : List String) : String :=
  let firstDyn : Int :=
    match parts.findIdx? (fun p => strHasPre p ":") with
    | some i => (i : Int)
    | none => -1
  if firstDyn > 0 then
    let cleaned := (parts.take firstDyn.toNat).filter (fun pp => pp ≠ "")
    if cleaned ≠ [] then "/" ++ joinSep "/" cleaned ++ "/" else "/"
  else "/"

/-- One positional binding line of the generated handler (part_003 line
619). -/
def routeParamAssign (i : Nat) (pname : String) : String :=
  "if len(pathParts) > " ++ toString i ++ " \x7b params[\"" ++ pname ++
    "\"] = pathParts[" ++ toString i ++ "] \x7d"

/-- The indexed loop over template segments emitting binding lines
(part_003 lines 617-621), with running index i. -/
def routeParamAssignsAux (i : Nat) : List String → List String
  | [] => []
  | p :: rest =>
      (if strHasPre p ":" then [routeParamAssign i (strTail p)] else [])
        ++ routeParamAssignsAux (i + 1) rest

/-- All positional binding lines, in segment order: segment i of the
template binds request path segment i under the segment's parameter
name. -/
def routeParamAssigns (parts : List String) : List String :=
  routeParamAssignsAux 0 parts

/-- One string occurring inside another (used to state that a generated
line appears in the emitted handler). -/
def strOccurs (sub s : String) : Prop := ∃ a b, s = a ++ sub ++ b

/-- Whether an expression is a function literal (the shape `route`
asserts of its second argument). -/
def Expr.isFuncLit : Expr → Bool
  | .funcLit _ _ _ _ _ => true
  | _ => false

/-- The keyed pairs of a map literal whose keys are all string literals
or identifiers (what genLetKeys computes without running captures). -/
def simpleKeys (prs : List (Expr × Expr)) : List (String × Expr) :=
  prs.map (fun p => ((keyName p.1).getD "", p.2))

/-- genTypeDefinition (part_003 lines 441-466): emit a struct type and
register the definition. Pure: no nested generator calls. -/
def genTypeDefinition (g : CGen) (td : TypeDef) : String × CGen :=
  match td with
  | .mk nme fields =>
      let ind := g.indentlevel
      let fieldLines := fields.foldl
        (fun acc f =>
          match f with
          | .mk fn ft nst =>
              match nst with
              | some ntd =>
                  acc ++ tabs (ind + 1) ++ capFirst fn ++ " struct \x7b\n" ++
                    String.join (ntd.fields.map
                      (fun nf => tabs (ind + 2) ++ capFirst nf.fname ++ " " ++
                        mapTypeToGo nf.ftype ++ "\n")) ++
                    tabs (ind + 1) ++ "\x7d\n"
              | none =>
                  acc ++ tabs (ind + 1) ++ capFirst fn ++ " " ++
                    mapTypeToGo ft ++ "\n")
        ""
      (tabs ind ++ "type " ++ nme ++ " struct \x7b\n" ++ fieldLines ++
        tabs ind ++ "\x7d\n",
       { g with typeDefs := updA g.typeDefs nme td })


mutual

/-- genExpression (part_003 lines 181-249). The returned string is the
text appended to the active buffer; captureExpression coincides with
this function under the explicit-state embedding. -/
def genExpression : Nat → CGen → Expr → GRes (String × CGen)
  | 0, _, _ => .fuelOut
  | fuel + 1, g, e =>
      match e with
      | .intLit v => pure (toString v, g)
      | .strLit v => pure ("\"" ++ v ++ "\"", g)
      | .ident v => pure (v, g)
      | .listLit elems => do
          let (strs, g1) ← genExprList fuel g elems
          pure ("[]interface\x7b\x7d\x7b" ++ joinSep ", " strs ++ "\x7d", g1)
      | .mapLit prs => do
          let (pairStrs, g1) ← genMapPairs fuel g prs
          pure ("map[string]interface\x7b\x7d\x7b" ++ joinSep ", " pairStrs ++ "\x7d", g1)
      | .indexE l idx => do
          let (leftStr, g1) ← genExpression fuel g l
          let (idxStr, g2) ← genExpression fuel g1 idx
          if strContains leftStr '[' then
            pure (leftStr ++ ".(map[string]interface\x7b\x7d)[" ++ idxStr ++ "]", g2)
          else
            pure (leftStr ++ "[" ++ idxStr ++ "]", g2)
      | .member obj prop =>
          if (resolveStructInfo g obj).1 then do
            let (s, g1) ← genExpression fuel g obj
            pure (s ++ "." ++ capFirst prop, g1)
          else do
            let (leftStr, g1) ← genExpression fuel g obj
            if strContains leftStr '[' then
              pure (leftStr ++ ".(map[string]interface\x7b\x7d)[\"" ++ prop ++ "\"]", g1)
            else
              pure (leftStr ++ "[\"" ++ prop ++ "\"]", g1)
      | .infixE op l r => do
          let (ls, g1) ← genExpression fuel g l
          let (rs, g2) ← genExpression fuel g1 r
          pure ("(" ++ ls ++ " " ++ op ++ " " ++ rs ++ ")", g2)
      | .funcLit nm ps pts rt body => do
          let (fstr, g1) ← genFunctionLiteral fuel g nm ps pts rt body
          pure (tabs g.indentlevel ++ fstr, g1)
      | .callE fn args => genCallExpression fuel g fn args

/-- The element loop of list literals / call arguments. -/
def genExprList : Nat → CGen → List Expr → GRes (List String × CGen)
  | 0, _, _ => .fuelOut
  | fuel + 1, g, es =>
      match es with
      | [] => pure ([], g)
      | e :: rest => do
          let (s, g1) ← genExpression fuel g e
          let (rest2, g2) ← genExprList fuel g1 rest
          pure (s :: rest2, g2)

/-- The pair loop of generic map literals (part_003 lines 196-209):
string-literal and identifier keys are quoted directly, any other key is
captured and quoted. -/
def genMapPairs : Nat → CGen → List (Expr × Expr) → GRes (List String × CGen)
  | 0, _, _ => .fuelOut
  | fuel + 1, g, prs =>
      match prs with
      | [] => pure ([], g)
      | (k, v) :: rest => do
          let (ks, g1) ←
            (match k with
             | .strLit s => (pure ("\"" ++ s ++ "\"", g) : GRes (String × CGen))
             | .ident s => pure ("\"" ++ s ++ "\"", g)
             | _ => do
                 let (cs, gx) ← genExpression fuel g k
                 pure ("\"" ++ cs ++ "\"", gx))
          let (vs, g2) ← genExpression fuel g1 v
          let (rest2, g3) ← genMapPairs fuel g2 rest
          pure ((ks ++ ": " ++ vs) :: rest2, g3)

/-- The key-collection loop of genLetStatement's typed-map branch
(part_003 lines 262-272): key text for string/identifier keys, captured
text otherwise; values stay unevaluated. -/
def genLetKeys : Nat → CGen → List (Expr × Expr) →
    GRes (List (String × Expr) × CGen)
  | 0, _, _ => .fuelOut
  | fuel + 1, g, prs =>
      match prs with
      | [] => pure ([], g)
      | (k, v) :: rest => do
          let (ks, g1) ←
            (match k with
             | .strLit s => (pure (s, g) : GRes (String × CGen))
             | .ident s => pure (s, g)
             | _ => genExpression fuel g k)
          let (rest2, g2) ← genLetKeys fuel g1 rest
          pure ((ks, v) :: rest2, g2)

/-- The field loop of genLetStatement's typed branch when the type is
registered (part_003 lines 282-326): declared order, nil for a missing
field, an inline anonymous-struct literal for a nested field whose
value is a map literal, a plain capture otherwise. -/
def genLetFields : Nat → CGen → List Field → List (String × Expr) →
    GRes (List String × CGen)
  | 0, _, _, _ => .fuelOut
  | fuel + 1, g, fields, kv =>
      match fields with
      | [] => pure ([], g)
      | .mk tn _tt nst :: rest =>
          match lookA kv tn with
          | none => do
              let (rest2, g1) ← genLetFields fuel g rest kv
              pure ((capFirst tn ++ ": nil") :: rest2, g1)
          | some valExpr => do
              let (vstr, g1) ← genLetFieldVal fuel g nst valExpr
              let (rest2, g2) ← genLetFields fuel g1 rest kv
              pure ((capFirst tn ++ ": " ++ vstr) :: rest2, g2)

/-- The rendered value of one present field of the typed-let branch: a
nested field with a map-literal value becomes an inline anonymous-struct
literal (part_003 lines 289-322), anything else is a plain capture
(line 325). -/
def genLetFieldVal : Nat → CGen → Option TypeDef → Expr →
    GRes (String × CGen)
  | 0, _, _, _ => .fuelOut
  | fuel + 1, g, nst, valExpr =>
      match nst, valExpr with
      | some ntd, .mapLit nprs => do
          let nestedTypeStr := "struct\x7b" ++
            joinSep ", " (ntd.fields.map
              (fun nf => capFirst nf.fname ++ " " ++ mapTypeToGo nf.ftype))
            ++ "\x7d"
          let (nkeyed, g1) ← genLetKeys fuel g nprs
          let nkv := buildKV nkeyed
          let (nstrs, g2) ← genNestedPairs fuel g1 ntd.fields nkv
          pure (nestedTypeStr ++ "\x7b" ++ joinSep ", " nstrs ++ "\x7d", g2)
      | _, _ => genExpression fuel g valExpr

/-- The nested-field loop of genLetStatement (part_003 lines 311-318). -/
def genNestedPairs : Nat → CGen → List Field → List (String × Expr) →
    GRes (List String × CGen)
  | 0, _, _, _ => .fuelOut
  | fuel + 1, g, nfields, nkv =>
      match nfields with
      | [] => pure ([], g)
      | .mk nfn _ _ :: rest =>
          match lookA nkv nfn with
          | none => do
              let (rest2, g1) ← genNestedPairs fuel g rest nkv
              pure ((capFirst nfn ++ ": nil") :: rest2, g1)
          | some nev => do
              let (vs, g1) ← genExpression fuel g nev
              let (rest2, g2) ← genNestedPairs fuel g1 rest nkv
              pure ((capFirst nfn ++ ": " ++ vs) :: rest2, g2)

/-- The fallback pair loop of genLetStatement when the declared type is
not registered (part_003 lines 328-332): sorted literal order. -/
def genPairsFallback : Nat → CGen → List (String × Expr) →
    GRes (List String × CGen)
  | 0, _, _ => .fuelOut
  | fuel + 1, g, sorted =>
      match sorted with
      | [] => pure ([], g)
      | (k, v) :: rest => do
          let (vs, g1) ← genExpression fuel g v
          let (rest2, g2) ← genPairsFallback fuel g1 rest
          pure ((capFirst k ++ ": " ++ vs) :: rest2, g2)

/-- The pair loop of genConstStatement (part_003 lines 354-364): only
string-literal keys are special-cased; keys and values are captured
immediately. -/
def genConstPairs : Nat → CGen → List (Expr × Expr) →
    GRes (List (String × String) × CGen)
  | 0, _, _ => .fuelOut
  | fuel + 1, g, prs =>
      match prs with
      | [] => pure ([], g)
      | (k, v) :: rest => do
          let (ks, g1) ←
            (match k with
             | .strLit s => (pure (s, g) : GRes (String × CGen))
             | _ => genExpression fuel g k)
          let (vs, g2) ← genExpression fuel g1 v
          let (rest2, g3) ← genConstPairs fuel g2 rest
          pure ((ks, vs) :: rest2, g3)

/-- genStatement (part_003 lines 159-179): indent, then dispatch; an
expression statement holding a named function literal is skipped (after
the indent was already written); a block statement has no case. -/
def genStatement : Nat → CGen → Stmt → GRes (String × CGen)
  | 0, _, _ => .fuelOut
  | fuel + 1, g, s =>
      let ind := tabs g.indentlevel
      match s with
      | .letS n tn v => do
          let (t, g1) ← genLetStatement fuel g n tn v
          pure (ind ++ t, g1)
      | .constS n tn v => do
          let (t, g1) ← genConstStatement fuel g n tn v
          pure (ind ++ t, g1)
      | .typeDefS td =>
          let (t, g1) := genTypeDefinition g td
          pure (ind ++ t, g1)
      | .returnS rv => do
          let (t, g1) ← genReturnStatement fuel g rv
          pure (ind ++ t, g1)
      | .exprS e =>
          (match e with
           | .funcLit (some _) _ _ _ _ => pure (ind, g)
           | _ => do
               let (t, g1) ← genExpression fuel g e
               pure (ind ++ t ++ "\n", g1))
      | .blockS _ => pure (ind, g)

/-- Sequential statement generation (the body loops of function
literals). -/
def genStmtList : Nat → CGen → List Stmt → GRes (String × CGen)
  | 0, _, _ => .fuelOut
  | fuel + 1, g, ss =>
      match ss with
      | [] => pure ("", g)
      | s :: rest => do
          let (t1, g1) ← genStatement fuel g s
          let (t2, g2) ← genStmtList fuel g1 rest
          pure (t1 ++ t2, g2)

/-- genLetStatement (part_003 lines 251-348). -/
def genLetStatement : Nat → CGen → String → String → Expr →
    GRes (String × CGen)
  | 0, _, _, _, _ => .fuelOut
  | fuel + 1, g, nme, typeName, value =>
      if typeName ≠ "" then
        match value with
        | .mapLit prs => do
            let (keyed, g1) ← genLetKeys fuel g prs
            let sorted := sortByKey keyed
            let kv := buildKV sorted
            match lookA g1.typeDefs typeName with
            | some td => do
                let (fieldStrs, g2) ← genLetFields fuel g1 td.fields kv
                pure ("var " ++ nme ++ " " ++ typeName ++ " = " ++ typeName ++
                        "\x7b" ++ joinSep ", " fieldStrs ++ "\x7d\n" ++
                        tabs g2.indentlevel ++ "_ = " ++ nme ++ "\n",
                      { g2 with variableTypes := updA g2.variableTypes nme typeName })
            | none => do
                let (fieldStrs, g2) ← genPairsFallback fuel g1 sorted
                pure ("var " ++ nme ++ " " ++ typeName ++ " = " ++ typeName ++
                        "\x7b" ++ joinSep ", " fieldStrs ++ "\x7d\n" ++
                        tabs g2.indentlevel ++ "_ = " ++ nme ++ "\n",
                      { g2 with variableTypes := updA g2.variableTypes nme typeName })
        | _ => do
            let (t, g1) ← genExpression fuel g value
            pure ("var " ++ nme ++ " = " ++ t ++ "\n" ++
                    tabs g1.indentlevel ++ "_ = " ++ nme ++ "\n", g1)
      else do
        let (t, g1) ← genExpression fuel g value
        pure ("var " ++ nme ++ " = " ++ t ++ "\n" ++
                tabs g1.indentlevel ++ "_ = " ++ nme ++ "\n", g1)

/-- genConstStatement (part_003 lines 350-379): never consults the
type-definition registry; pairs are captured, key-sorted and emitted
with no placeholder for absent declared fields. -/
def genConstStatement : Nat → CGen → String → String → Expr →
    GRes (String × CGen)
  | 0, _, _, _, _ => .fuelOut
  | fuel + 1, g, nme, typeName, value =>
      if typeName ≠ "" then
        match value with
        | .mapLit prs => do
            let (cap, g1) ← genConstPairs fuel g prs
            let sorted := sortByKeyS cap
            let fields := sorted.map (fun p => capFirst p.1 ++ ": " ++ p.2)
            pure ("const " ++ nme ++ " = " ++ typeName ++ "\x7b" ++
                    joinSep ", " fields ++ "\x7d\n",
                  { g1 with variableTypes := updA g1.variableTypes nme typeName })
        | _ => do
            let (t, g1) ← genExpression fuel g value
            pure ("const " ++ nme ++ " = " ++ t ++ "\n", g1)
      else do
        let (t, g1) ← genExpression fuel g value
        pure ("const " ++ nme ++ " = " ++ t ++ "\n", g1)

/-- genReturnStatement (part_003 lines 381-385). -/
def genReturnStatement : Nat → CGen → Expr → GRes (String × CGen)
  | 0, _, _ => .fuelOut
  | fuel + 1, g, rv => do
      let (t, g1) ← genExpression fuel g rv
      pure ("return " ++ t ++ "\n", g1)

/-- genFunctionLiteral (part_003 lines 387-428): anonymous function
text; the body is generated by a fresh Generator at one deeper indent
whose state changes are discarded, and a default `return nil` is added
when the body has no return statement. The enclosing generator's state
is unchanged. -/
def genFunctionLiteral : Nat → CGen → Option String → List String →
    List (String × String) → String → List Stmt → GRes (String × CGen)
  | 0, _, _, _, _, _, _ => .fuelOut
  | fuel + 1, g, _nm, ps, pts, rt, body => do
      let params := ps.map
        (fun p =>
          match lookA pts p with
          | some t => p ++ " " ++ mapTypeToGo t
          | none => p ++ " interface\x7b\x7d")
      let retType := if rt ≠ "" then mapTypeToGo rt else "interface\x7b\x7d"
      let (bodyText, bg) ← genStmtList fuel (newGenerator (g.indentlevel + 1)) body
      let hasReturn := body.any
        (fun s => match s with | .returnS _ => true | _ => false)
      let bodyText2 :=
        if hasReturn then bodyText
        else bodyText ++ tabs bg.indentlevel ++ "return nil\n"
      pure ("func(" ++ joinSep ", " params ++ ") " ++ retType ++ " \x7b\n" ++
              bodyText2 ++ "\x7d", g)

/-- The generic call path of genCallExpression (part_003 lines
497-505). -/
def genCallGeneric : Nat → CGen → Expr → List Expr → GRes (String × CGen)
  | 0, _, _, _ => .fuelOut
  | fuel + 1, g, fn, args => do
      let (fs, g1) ← genExpression fuel g fn
      let (strs, g2) ← genExprList fuel g1 args
      pure (fs ++ "(" ++ joinSep ", " strs ++ ")", g2)

/-- genCallExpression (part_003 lines 468-505): the server.serve /
server.static / server.route builtins index their argument lists
without a bounds check (crash on too few arguments) and `print` lowers
to fmt.Println; anything else is a generic call. -/
def genCallExpression : Nat → CGen → Expr → List Expr → GRes (String × CGen)
  | 0, _, _, _ => .fuelOut
  | fuel + 1, g, fn, args =>
      match fn with
      | .member (.ident sv) prop =>
          if sv = "server" then
            if prop = "serve" then
              let g1 := { g with requiresHttp := true, requiresLog := true }
              match args with
              | a :: _ => do
                  let (s, g2) ← genExpression fuel g1 a
                  pure ("log.Fatal(http.ListenAndServe(\":" ++ s ++ "\", nil))", g2)
              | [] => .crash
            else if prop = "static" then
              let g1 := { g with requiresHttp := true }
              match args with
              | a :: _ => do
                  let (s, g2) ← genExpression fuel g1 a
                  pure ("http.Handle(\"/\", http.FileServer(http.Dir(" ++ s ++ ")))", g2)
              | [] => .crash
            else if prop = "route" then genRouteExpression fuel g args
            else genCallGeneric fuel g fn args
          else genCallGeneric fuel g fn args
      | .ident pn =>
          if pn = "print" then do
            let g1 := { g with requiresFmt := true }
            let (strs, g2) ← genExprList fuel g1 args
            pure ("fmt.Println(" ++ joinSep ", " strs ++ ")", g2)
          else genCallGeneric fuel g fn args
      | _ => genCallGeneric fuel g fn args

/-- The body loop of the minimal (parameterless) route handler
(part_003 lines 524-533). -/
def genRouteBodySimple : Nat → CGen → List Stmt → GRes (String × CGen)
  | 0, _, _ => .fuelOut
  | fuel + 1, hg, ss =>
      match ss with
      | [] => pure ("", hg)
      | s :: rest =>
          match s with
          | .returnS rv => do
              let (cs, hg1) ← genExpression fuel hg rv
              let (restT, hg2) ← genRouteBodySimple fuel hg1 rest
              pure (tabs hg.indentlevel ++ "returnValue := " ++ cs ++ "\n" ++ restT,
                hg2)
          | _ => do
              let (t, hg1) ← genStatement fuel hg s
              let (restT, hg2) ← genRouteBodySimple fuel hg1 rest
              pure (t ++ restT, hg2)

/-- The body loop of the rich route handler (part_003 lines 648-657). -/
def genRouteBodyRich : Nat → CGen → List Stmt → GRes (String × CGen)
  | 0, _, _ => .fuelOut
  | fuel + 1, hg, ss =>
      match ss with
      | [] => pure ("", hg)
      | s :: rest =>
          match s with
          | .returnS rv => do
              let (cs, hg1) ← genExpression fuel hg rv
              let (restT, hg2) ← genRouteBodyRich fuel hg1 rest
              pure (tabs hg.indentlevel ++ "returnValue := interface\x7b\x7d(" ++
                cs ++ ")\n" ++ restT, hg2)
          | _ => do
              let (t, hg1) ← genStatement fuel hg s
              let (restT, hg2) ← genRouteBodyRich fuel hg1 rest
              pure (t ++ restT, hg2)

/-- genRouteExpression (part_003 lines 507-680): captures the raw path
from the first argument, asserts the second argument is a function
literal (crash otherwise), then emits either the minimal handler (no
parameters) or the rich handler with query/path/body extraction and
response serialization. -/
def genRouteExpression : Nat → CGen → List Expr → GRes (String × CGen)
  | 0, _, _ => .fuelOut
  | fuel + 1, g, args =>
      match args with
      | [] => .crash
      | a0 :: restArgs => do
          let (rawPath, g1) ← genExpression fuel g a0
          match restArgs with
          | [] => .crash
          | a1 :: _ =>
              match a1 with
              | .funcLit _ hparams _ _ hbody =>
                  let ind := g1.indentlevel
                  if hparams = [] then do
                    let g2 := { g1 with requiresHttp := true, requiresFmt := true }
                    let (bodyText, hgf) ←
                      genRouteBodySimple fuel (newGenerator (ind + 1)) hbody
                    pure ("http.HandleFunc(" ++ rawPath ++
                            ", wrapHandler(func(w http.ResponseWriter, r *http.Request) \x7b" ++
                            "\n" ++ bodyText ++
                            tabs hgf.indentlevel ++ "fmt.Fprint(w, returnValue)\n" ++
                            tabs ind ++ "\x7d)", g2)
                  else do
                    let g2 := { g1 with
                      requiresHttp := true
                      requiresFmt := true
                      requiresLog := true
                      requiresJson := true
                      requiresIo := true }
                    let pathStr := trimChar rawPath '"'
                    let parts := routeParts pathStr
                    let pnames := routeParamNames parts
                    let regPattern :=
                      if pnames ≠ [] then "\"" ++ routeRegPrefix parts ++ "\""
                      else rawPath
                    let ind1 := ind + 1
                    let prelude :=
                      tabs ind1 ++ "query := make(map[string]interface\x7b\x7d)\n" ++
                      tabs ind1 ++ "for k, v := range r.URL.Query() \x7b\n" ++
                      tabs (ind1 + 1) ++ "if len(v) > 0 \x7b query[k] = v[0] \x7d\n" ++
                      tabs ind1 ++ "\x7d\n" ++
                      tabs ind1 ++ "req := make(map[string]interface\x7b\x7d)\n" ++
                      tabs ind1 ++ "req[\"query\"] = query\n"
                    let g3 :=
                      if pnames ≠ [] then { g2 with requiresStrings := true } else g2
                    let paramsBlock :=
                      if pnames ≠ [] then
                        tabs ind1 ++ "pathParts := strings.Split(strings.Trim(r.URL.Path, \"/\"), \"/\")\n" ++
                        tabs ind1 ++ "params := make(map[string]interface\x7b\x7d)\n" ++
                        tabs ind1 ++ "// naive mapping: match positions\n" ++
                        tabs ind1 ++ "for i, part := range pathParts \x7b\n" ++
                        tabs (ind1 + 1) ++ "_ = i; _ = part\n" ++
                        tabs ind1 ++ "\x7d\n" ++
                        String.join ((routeParamAssigns parts).map
                          (fun l => tabs ind1 ++ l ++ "\n")) ++
                        tabs ind1 ++ "req[\"params\"] = params\n"
                      else ""
                    let bodyParse :=
                      tabs ind1 ++ "if r.Method == \"POST\" || r.Method == \"PUT\" \x7b\n" ++
                      tabs (ind1 + 1) ++ "r.Body = http.MaxBytesReader(w, r.Body, 1<<20) // limit to 1MB\n" ++
                      tabs (ind1 + 1) ++ "defer r.Body.Close()\n" ++
                      tabs (ind1 + 1) ++ "bodyBytes, err := ioutil.ReadAll(r.Body)\n" ++
                      tabs (ind1 + 1) ++ "if err != nil \x7b http.Error(w, \"failed to read body\", http.StatusBadRequest); return \x7d\n" ++
                      tabs (ind1 + 1) ++ "if len(bodyBytes) > 0 \x7b var bodyObj interface\x7b\x7d; if err := json.Unmarshal(bodyBytes, &bodyObj); err != nil \x7b http.Error(w, \"invalid JSON\", http.StatusBadRequest); return \x7d; req[\"body\"] = bodyObj \x7d\n" ++
                      tabs ind1 ++ "\x7d\n" ++
                      tabs ind1 ++ "log.Printf(\"%s %s\", r.Method, r.URL.Path)\n"
                    let (bodyText, hgf) ←
                      genRouteBodyRich fuel (newGenerator ind1) hbody
                    let serial :=
                      tabs hgf.indentlevel ++ "switch rv := returnValue.(type) \x7b\n" ++
                      tabs (hgf.indentlevel + 1) ++ "case string:\n" ++
                      tabs (hgf.indentlevel + 2) ++ "fmt.Fprint(w, rv)\n" ++
                      tabs (hgf.indentlevel + 1) ++ "default:\n" ++
                      tabs (hgf.indentlevel + 2) ++ "b, _ := json.Marshal(rv)\n" ++
                      tabs (hgf.indentlevel + 2) ++ "w.Header().Set(\"Content-Type\", \"application/json\")\n" ++
                      tabs (hgf.indentlevel + 2) ++ "w.Write(b)\n" ++
                      tabs hgf.indentlevel ++ "\x7d\n"
                    pure ("http.HandleFunc(" ++ regPattern ++
                            ", func(w http.ResponseWriter, r *http.Request) \x7b" ++ "\n" ++
                            prelude ++ paramsBlock ++ bodyParse ++
                            tabs ind1 ++ "// handler logic\n" ++ bodyText ++ serial ++
                            tabs ind ++ "\x7d)", g3)
              | _ => .crash

end

/-- A three-field sample type definition (declared order b, a, z). -/
def tdBAZ : TypeDef :=
  .mk "T" [.mk "b" "int" none, .mk "a" "int" none, .mk "z" "int" none]

/-- A generator state with `tdBAZ` registered under "T". -/
def gWithT : CGen := { newGenerator 1 with typeDefs := [("T", tdBAZ)] }

/-! ### Association-list and provided-map lemmas -/

theorem lookA_updA_self {α : Type} (m : List (String × α)) (k : String) (v : α) :
    lookA (updA m k v) k = some v := by
  induction m with
  | nil => simp [updA, lookA]
  | cons h t ih =>
      obtain ⟨k0, v0⟩ := h
      by_cases hk : k0 = k
      · simp [updA, hk, lookA]
      · simp [updA, hk, lookA, ih]

theorem lookA_updA_ne {α : Type} (m : List (String × α)) {k k' : String}
    (v : α) (hne : k ≠ k') : lookA (updA m k v) k' = lookA m k' := by
  induction m with
  | nil => simp [updA, lookA, hne]
  | cons h t ih =>
      obtain ⟨k0, v0⟩ := h
      by_cases hk : k0 = k
      · subst hk
        simp [updA, lookA, hne]
      · simp [updA, hk, lookA, ih]

theorem lookA_providedStep (prs : List (Expr × Expr))
    (acc : List (String × Expr)) (k : String) :
    lookA (prs.foldl
      (fun acc p =>
        match keyName p.1 with
        | some kk => updA acc kk p.2
        | none => acc) acc) k = none
    ↔ lookA acc k = none ∧ ∀ p ∈ prs, keyName p.1 ≠ some k := by
  induction prs generalizing acc with
  | nil => simp
  | cons q rest ih =>
      simp only [List.foldl_cons]
      cases hq : keyName q.1 with
      | none =>
          rw [ih]
          simp [hq]
      | some kk =>
          rw [ih]
          by_cases hkk : kk = k
          · subst hkk
            simp [lookA_updA_self, hq]
          · rw [lookA_updA_ne _ _ hkk]
            simp [hq, hkk, List.forall_mem_cons]

theorem lookA_providedOf_none (prs : List (Expr × Expr)) (k : String) :
    lookA (providedOf prs) k = none ↔ ∀ p ∈ prs, keyName p.1 ≠ some k := by
  rw [providedOf, lookA_providedStep]
  simp [lookA]

theorem providedOf_removeField (f : String) (prs : List (Expr × Expr)) :
    lookA (providedOf (removeField f prs)) f = none := by
  rw [lookA_providedOf_none]
  intro p hp
  simp only [removeField, List.mem_filter, Bool.not_eq_true', beq_eq_false_iff_ne,
    ne_eq] at hp
  exact hp.2

/-! ### Structural lemmas about checkMapAgainstType -/

theorem diagPathLen_fields (n : Nat) :
    ∀ (fields : List Field), sizeOf fields ≤ n →
      ∀ (provided : List (String × Expr)) (p : String) (d : Diag),
        d ∈ checkFields provided fields p → p.length ≤ (diagPath d).length := by
  induction n using Nat.strong_induction_on with
  | _ n ih =>
    intro fields hsz provided p d hd
    match fields with
    | [] => simp [checkFields] at hd
    | .mk fn ft nst :: rest =>
      rw [checkFields] at hd
      rcases List.mem_append.mp hd with hhead | htail
      · cases hlook : lookA provided fn with
        | none =>
            rw [hlook] at hhead
            simp at hhead
            subst hhead
            simp [diagPath]
        | some pv =>
            rw [hlook] at hhead
            cases nst with
            | none =>
                cases pv <;> simp_all [diagPath]
            | some ntd =>
                cases pv with
                | mapLit nprs =>
                    cases ntd with
                    | mk nn nf =>
                        simp only at hhead
                        rw [checkMapAgainstType] at hhead
                        have hlt : sizeOf nf < n := by
                          have h1 : sizeOf (Field.mk fn ft (some (TypeDef.mk nn nf)) :: rest) ≤ n := hsz
                          simp only [List.cons.sizeOf_spec, Field.mk.sizeOf_spec,
                            Option.some.sizeOf_spec, TypeDef.mk.sizeOf_spec] at h1
                          omega
                        have hle := ih (sizeOf nf) hlt nf le_rfl (providedOf nprs)
                          (p ++ "." ++ fn) d hhead
                        have hdot : ("." : String).length = 1 := rfl
                        have hlen : (p ++ "." ++ fn).length = p.length + 1 + fn.length := by
                          simp [String.length_append, hdot]
                        omega
                | _ => simp_all [diagPath]
      · have hlt : sizeOf rest < n := by
          have h1 : sizeOf (Field.mk fn ft nst :: rest) ≤ n := hsz
          simp only [List.cons.sizeOf_spec] at h1
          have h2 : 0 < sizeOf (Field.mk fn ft nst) := by
            simp [Field.mk.sizeOf_spec]
          omega
        exact ih (sizeOf rest) hlt rest le_rfl provided p d htail

theorem diagPathLen_check (prs : List (Expr × Expr)) (td : TypeDef) (p : String)
    (d : Diag) (hd : d ∈ checkMapAgainstType prs td p) :
    p.length ≤ (diagPath d).length := by
  cases td with
  | mk nme fields =>
      rw [checkMapAgainstType] at hd
      exact diagPathLen_fields (sizeOf fields) fields le_rfl (providedOf prs) p d hd

theorem no_missing_at_path (provided : List (String × Expr))
    (fields : List Field) (p : String)
    (hcov : ∀ fl ∈ fields, lookA provided fl.fname ≠ none) (f : String) :
    Diag.missingField p f ∉ checkFields provided fields p := by
  induction fields with
  | nil => simp [checkFields]
  | cons hf rest ih =>
      obtain ⟨fn, ft, nst⟩ := hf
      intro hd
      rw [checkFields] at hd
      rcases List.mem_append.mp hd with hhead | htail
      · cases hlook : lookA provided fn with
        | none =>
            exact hcov (Field.mk fn ft nst) (by simp) (by simp [Field.fname, hlook])
        | some pv =>
            rw [hlook] at hhead
            cases nst with
            | none =>
                cases pv <;> simp_all
            | some ntd =>
                cases pv with
                | mapLit nprs =>
                    simp only at hhead
                    have hlen := diagPathLen_check nprs ntd (p ++ "." ++ fn)
                      (Diag.missingField p f) hhead
                    have hdot : ("." : String).length = 1 := rfl
                    simp [diagPath, String.length_append, hdot] at hlen
                    omega
                | _ => simp_all
      · exact ih (fun fl hfl => hcov fl (List.mem_cons_of_mem _ hfl)) htail

theorem missing_mem_checkFields (provided : List (String × Expr))
    (fields : List Field) (p f : String)
    (hnone : lookA provided f = none) (hf : f ∈ fields.map Field.fname) :
    Diag.missingField p f ∈ checkFields provided fields p := by
  induction fields with
  | nil => simp at hf
  | cons hd rest ih =>
      obtain ⟨fn, ft, nst⟩ := hd
      rw [checkFields]
      rw [List.mem_append]
      rcases (by simpa [Field.fname] using hf : f = fn ∨ f ∈ rest.map Field.fname)
        with heq | hmem
      · subst heq
        rw [hnone]
        simp
      · exact Or.inr (ih hmem)

theorem fieldName_mem_fields (n : Nat) :
    ∀ (fields : List Field), sizeOf fields ≤ n →
      ∀ (provided : List (String × Expr)) (p : String) (d : Diag),
        d ∈ checkFields provided fields p →
          diagFieldName d ∈ allFieldNamesF fields := by
  induction n using Nat.strong_induction_on with
  | _ n ih =>
    intro fields hsz provided p d hd
    match fields with
    | [] => simp [checkFields] at hd
    | .mk fn ft nst :: rest =>
      rw [checkFields] at hd
      rcases List.mem_append.mp hd with hhead | htail
      · cases hlook : lookA provided fn with
        | none =>
            rw [hlook] at hhead
            simp at hhead
            subst hhead
            cases nst <;> simp [allFieldNamesF, diagFieldName]
        | some pv =>
            rw [hlook] at hhead
            cases nst with
            | none =>
                cases pv <;> simp_all [allFieldNamesF, diagFieldName]
            | some ntd =>
                cases pv with
                | mapLit nprs =>
                    cases ntd with
                    | mk nn nf =>
                        simp only at hhead
                        rw [checkMapAgainstType] at hhead
                        have hlt : sizeOf nf < n := by
                          have h1 : sizeOf (Field.mk fn ft (some (TypeDef.mk nn nf)) :: rest) ≤ n := hsz
                          simp only [List.cons.sizeOf_spec, Field.mk.sizeOf_spec,
                            Option.some.sizeOf_spec, TypeDef.mk.sizeOf_spec] at h1
                          omega
                        have hmem := ih (sizeOf nf) hlt nf le_rfl (providedOf nprs)
                          (p ++ "." ++ fn) d hhead
                        simp [allFieldNamesF, allFieldNames, List.mem_append]
                        tauto
                | _ => simp_all [allFieldNamesF, diagFieldName]
      · have hlt : sizeOf rest < n := by
          have h1 : sizeOf (Field.mk fn ft nst :: rest) ≤ n := hsz
          simp only [List.cons.sizeOf_spec] at h1
          have h2 : 0 < sizeOf (Field.mk fn ft nst) := by
            simp [Field.mk.sizeOf_spec]
          omega
        have hmem := ih (sizeOf rest) hlt rest le_rfl provided p d htail
        cases nst <;> simp [allFieldNamesF, List.mem_append] <;> tauto


/-! ### Generator result and string lemmas -/

@[simp] theorem gbind_ok {α β : Type} (a : α) (f : α → GRes β) :
    (GRes.ok a >>= f) = f a := rfl

@[simp] theorem gbind_crash {α β : Type} (f : α → GRes β) :
    (GRes.crash >>= f) = .crash := rfl

@[simp] theorem gbind_fuelOut {α β : Type} (f : α → GRes β) :
    (GRes.fuelOut >>= f) = .fuelOut := rfl

@[simp] theorem gpure_eq {α : Type} (a : α) : (pure a : GRes α) = .ok a := rfl

theorem strAppend_assoc (a b c : String) : a ++ b ++ c = a ++ (b ++ c) :=
  String.ext (by simp [String.data_append])

theorem strMk_data (s : String) : String.mk s.data = s := rfl

theorem strHasPre_of_eq_append (s p r : String) (h : s = p ++ r) :
    strHasPre s p = true := by
  subst h
  simp only [strHasPre, String.data_append]
  exact List.isPrefixOf_iff_prefix.mpr (List.prefix_append _ _)

theorem strAppend_empty (s : String) : s ++ "" = s :=
  String.ext (by simp [String.data_append])

theorem strEmpty_append (s : String) : "" ++ s = s :=
  String.ext (by simp [String.data_append])

theorem strFoldl_shift (t : List String) :
    ∀ a : String, t.foldl (fun r s => r ++ s) a
      = a ++ t.foldl (fun r s => r ++ s) "" := by
  induction t with
  | nil => intro a; simp [strAppend_empty]
  | cons h t ih =>
      intro a
      simp only [List.foldl_cons]
      rw [ih (a ++ h), ih ("" ++ h), strEmpty_append, strAppend_assoc]

theorem strJoin_cons (h : String) (t : List String) :
    String.join (h :: t) = h ++ String.join t := by
  simp only [String.join, List.foldl_cons]
  rw [strFoldl_shift t ("" ++ h), strEmpty_append]

theorem strJoin_split (l : List String) (x : String) (hx : x ∈ l) :
    ∃ a b, String.join l = a ++ (x ++ b) := by
  induction l with
  | nil => simp at hx
  | cons h t ih =>
      rcases List.mem_cons.mp hx with rfl | hmem
      · exact ⟨"", String.join t, by rw [strJoin_cons, strEmpty_append]⟩
      · obtain ⟨a, b, hab⟩ := ih hmem
        exact ⟨h ++ a, b, by rw [strJoin_cons, hab, strAppend_assoc]⟩

theorem strHasPre_colon (nm : String) : strHasPre (":" ++ nm) ":" = true := by
  have h1 : (":" : String).data = [':'] := rfl
  simp only [strHasPre, String.data_append, h1]
  simp [List.isPrefixOf]

theorem strTail_colon (nm : String) : strTail (":" ++ nm) = nm := by
  have h1 : (":" : String).data = [':'] := rfl
  have h : (":" ++ nm).data = ':' :: nm.data := by
    rw [String.data_append, h1]
    rfl
  simp [strTail, h]

/-! ### genLetKeys / kv lemmas -/

theorem genLetKeys_simple (prs : List (Expr × Expr)) :
    ∀ (fuel : Nat) (g : CGen), prs.length < fuel →
      (∀ p ∈ prs, (keyName p.1).isSome = true) →
      genLetKeys fuel g prs = .ok (simpleKeys prs, g) := by
  induction prs with
  | nil =>
      intro fuel g hf _
      match fuel, hf with
      | fuel + 1, _ => simp [genLetKeys, simpleKeys]
  | cons p rest ih =>
      intro fuel g hf hk
      match fuel, hf with
      | fuel + 1, hf =>
          obtain ⟨k, v⟩ := p
          have hk1 := hk (k, v) (List.mem_cons_self _ _)
          have hrest : genLetKeys fuel g rest = .ok (simpleKeys rest, g) :=
            ih fuel g (by simpa using Nat.lt_of_succ_lt_succ hf)
              (fun q hq => hk q (List.mem_cons_of_mem _ hq))
          cases k <;> simp [keyName] at hk1 <;>
            simp [genLetKeys, hrest, simpleKeys, keyName]

theorem lookA_buildKVStep (l : List (String × Expr))
    (acc : List (String × Expr)) (k : String) :
    lookA (l.foldl (fun a p => updA a p.1 p.2) acc) k = none
    ↔ lookA acc k = none ∧ ∀ p ∈ l, p.1 ≠ k := by
  induction l generalizing acc with
  | nil => simp
  | cons q rest ih =>
      simp only [List.foldl_cons]
      rw [ih]
      by_cases hq : q.1 = k
      · subst hq
        simp [lookA_updA_self]
      · rw [lookA_updA_ne _ _ hq]
        simp [hq, List.forall_mem_cons]

theorem lookA_buildKV_none (l : List (String × Expr)) (k : String) :
    lookA (buildKV l) k = none ↔ ∀ p ∈ l, p.1 ≠ k := by
  rw [buildKV, lookA_buildKVStep]
  simp [lookA]

theorem insertByKey_perm (p : String × Expr) (l : List (String × Expr)) :
    (insertByKey p l).Perm (p :: l) := by
  induction l with
  | nil => simp [insertByKey]
  | cons q rest ih =>
      simp only [insertByKey]
      by_cases hlt : strLtB p.1 q.1 = true
      · simp [hlt]
      · simp only [hlt, if_false]
        exact (ih.cons q).trans (List.Perm.swap _ _ _)

theorem sortByKey_perm (l : List (String × Expr)) : (sortByKey l).Perm l := by
  have haux : ∀ (l acc : List (String × Expr)),
      (l.foldl (fun a p => insertByKey p a) acc).Perm (acc ++ l) := by
    intro l
    induction l with
    | nil => simp
    | cons q rest ih =>
        intro acc
        simp only [List.foldl_cons]
        refine (ih (insertByKey q acc)).trans ?_
        refine (List.Perm.append_right rest (insertByKey_perm q acc)).trans ?_
        exact List.perm_middle.symm.trans (by simp)
  simpa using haux l []

theorem mem_keys_sortByKey (l : List (String × Expr)) (k : String) :
    (∃ p ∈ sortByKey l, p.1 = k) ↔ ∃ p ∈ l, p.1 = k := by
  constructor
  · rintro ⟨p, hp, rfl⟩
    exact ⟨p, (sortByKey_perm l).mem_iff.mp hp, rfl⟩
  · rintro ⟨p, hp, rfl⟩
    exact ⟨p, (sortByKey_perm l).mem_iff.mpr hp, rfl⟩

/-! ### Route-lowering lemmas -/

theorem findIdx?_append_aux {α : Type} (pred : α → Bool)
    (d : α) (rest : List α) (hd : pred d = true) :
    ∀ (segs : List α), (∀ x ∈ segs, pred x = false) →
      ∀ i : Nat, (segs ++ d :: rest).findIdx? pred i = some (i + segs.length) := by
  intro segs
  induction segs with
  | nil => intro _ i; simp [List.findIdx?_cons, hd]
  | cons a as ih =>
      intro hstatic i
      have ha := hstatic a (List.mem_cons_self _ _)
      simp only [List.cons_append, List.findIdx?_cons, ha, Bool.false_eq_true,
        if_false]
      rw [ih (fun x hx => hstatic x (List.mem_cons_of_mem _ hx)) (i + 1)]
      congr 1
      simp
      omega

theorem findIdx?_append_first {α : Type} (pred : α → Bool) (segs : List α)
    (d : α) (rest : List α) (hstatic : ∀ x ∈ segs, pred x = false)
    (hd : pred d = true) :
    (segs ++ d :: rest).findIdx? pred = some segs.length := by
  have := findIdx?_append_aux pred d rest hd segs hstatic 0
  simpa using this

theorem routeParamNames_has (segs : List String) (pname : String)
    (rest : List String) :
    pname ∈ routeParamNames (segs ++ (":" ++ pname) :: rest) := by
  unfold routeParamNames
  rw [List.filterMap_append]
  apply List.mem_append_right
  simp only [List.filterMap_cons, strHasPre_colon]
  simp [strTail_colon]

theorem routeRegPrefix_eq (segs rest : List String) (pname : String)
    (hstatic : ∀ s ∈ segs, strHasPre s ":" = false) :
    routeRegPrefix (segs ++ (":" ++ pname) :: rest)
      = if segs.filter (fun s => s ≠ "") = [] then "/"
        else "/" ++ joinSep "/" (segs.filter (fun s => s ≠ "")) ++ "/" := by
  unfold routeRegPrefix
  rw [findIdx?_append_first _ segs _ rest hstatic (strHasPre_colon pname)]
  cases segs with
  | nil => simp
  | cons a as =>
      have hpos : ((((a :: as).length : Nat) : Int) > 0) := by
        simp only [List.length_cons]
        positivity
      simp only [hpos, if_true, Int.toNat_natCast]
      rw [List.take_left]
      simp only [ne_eq, decide_not]
      by_cases hclean :
          List.filter (fun pp => !decide (pp = "")) (a :: as) = [] <;>
        simp [hclean]

theorem assign_mem_aux (l : List String) :
    ∀ (n i : Nat) (hi : i < l.length) (nm : String),
      l.get ⟨i, hi⟩ = ":" ++ nm →
      routeParamAssign (n + i) nm ∈ routeParamAssignsAux n l := by
  induction l with
  | nil => intro n i hi; simp at hi
  | cons p rest ih =>
      intro n i hi nm hget
      match i with
      | 0 =>
          simp only [List.get] at hget
          subst hget
          simp [routeParamAssignsAux, strHasPre_colon, strTail_colon]
      | i + 1 =>
          have hmem := ih (n + 1) i (by simpa using Nat.lt_of_succ_lt_succ hi) nm
            (by simpa using hget)
          have harith : n + (i + 1) = (n + 1) + i := by omega
          rw [harith]
          simp only [routeParamAssignsAux]
          exact List.mem_append_right _ hmem

theorem assign_mem (parts : List String) (i : Nat) (hi : i < parts.length)
    (nm : String) (hget : parts.get ⟨i, hi⟩ = ":" ++ nm) :
    routeParamAssign i nm ∈ routeParamAssigns parts := by
  have := assign_mem_aux parts 0 i hi nm hget
  simpa [routeParamAssigns] using this

theorem strHasPre_self (a : String) : strHasPre a a = true := by
  simp only [strHasPre]
  exact List.isPrefixOf_iff_prefix.mpr (List.prefix_refl _)

theorem strHasPre_append_left (a b p : String) (h : strHasPre a p = true) :
    strHasPre (a ++ b) p = true := by
  simp only [strHasPre, String.data_append] at h ⊢
  exact List.isPrefixOf_iff_prefix.mpr
    ((List.isPrefixOf_iff_prefix.mp h).trans (List.prefix_append _ _))

theorem strOccurs_append_left (sub a b : String) (h : strOccurs sub a) :
    strOccurs sub (a ++ b) := by
  obtain ⟨x, y, rfl⟩ := h
  exact ⟨x, y ++ b, by simp [strAppend_assoc]⟩

theorem strOccurs_append_right (sub a b : String) (h : strOccurs sub b) :
    strOccurs sub (a ++ b) := by
  obtain ⟨x, y, rfl⟩ := h
  exact ⟨a ++ x, y, by simp [strAppend_assoc]⟩

theorem strOccurs_join_map (f : String → String) (l : List String) (x : String)
    (hx : x ∈ l) : strOccurs (f x) (String.join (l.map f)) := by
  obtain ⟨a, b, hab⟩ := strJoin_split (l.map f) (f x) (List.mem_map_of_mem f hx)
  exact ⟨a, b, by rw [hab, strAppend_assoc]⟩

/-! ### Structure of the typed-let field list -/

theorem genLetFields_spec (fields : List Field) :
    ∀ (fuel : Nat) (g : CGen) (kv : List (String × Expr))
      (fs : List String) (gf : CGen),
      genLetFields fuel g fields kv = .ok (fs, gf) →
      fs.length = fields.length
      ∧ ∀ i (hi : i < fs.length) (hi2 : i < fields.length),
          (∃ v, fs.get ⟨i, hi⟩
            = capFirst (fields.get ⟨i, hi2⟩).fname ++ ": " ++ v)
          ∧ (lookA kv (fields.get ⟨i, hi2⟩).fname = none →
              fs.get ⟨i, hi⟩
                = capFirst (fields.get ⟨i, hi2⟩).fname ++ ": nil") := by
  induction fields with
  | nil =>
      intro fuel g kv fs gf h
      cases fuel with
      | zero => simp [genLetFields] at h
      | succ fuel =>
          simp only [genLetFields, gpure_eq, GRes.ok.injEq, Prod.mk.injEq] at h
          obtain ⟨rfl, rfl⟩ := h
          refine ⟨rfl, ?_⟩
          intro i hi
          simp at hi
  | cons f rest ih =>
      intro fuel g kv fs gf h
      cases fuel with
      | zero => simp [genLetFields] at h
      | succ fuel =>
          obtain ⟨tn, tt, nst⟩ := f
          cases hlook : lookA kv tn with
          | none =>
              simp only [genLetFields, hlook] at h
              cases hr : genLetFields fuel g rest kv with
              | crash => rw [hr] at h; simp at h
              | fuelOut => rw [hr] at h; simp at h
              | ok r =>
                  obtain ⟨rest2, g1⟩ := r
                  rw [hr] at h
                  simp only [gbind_ok, gpure_eq, GRes.ok.injEq, Prod.mk.injEq] at h
                  obtain ⟨rfl, rfl⟩ := h
                  obtain ⟨hlen, hspec⟩ := ih _ _ _ _ _ hr
                  refine ⟨by simp [hlen], ?_⟩
                  intro i hi hi2
                  match i with
                  | 0 =>
                      constructor
                      · refine ⟨"nil", ?_⟩
                        simp only [List.get, Field.fname]
                        rw [strAppend_assoc]
                        congr 1
                      · intro _
                        simp [Field.fname]
                  | i + 1 =>
                      have hi3 : i < rest2.length := by simpa using hi
                      have hi4 : i < rest.length := by simpa using hi2
                      exact hspec i hi3 hi4
          | some valExpr =>
              simp only [genLetFields, hlook] at h
              cases hv : genLetFieldVal fuel g nst valExpr with
              | crash => rw [hv] at h; simp at h
              | fuelOut => rw [hv] at h; simp at h
              | ok vr =>
                  obtain ⟨vstr, g1⟩ := vr
                  rw [hv] at h
                  simp only [gbind_ok] at h
                  cases hr : genLetFields fuel g1 rest kv with
                  | crash => rw [hr] at h; simp at h
                  | fuelOut => rw [hr] at h; simp at h
                  | ok r =>
                      obtain ⟨rest2, g2⟩ := r
                      rw [hr] at h
                      simp only [gbind_ok, gpure_eq, GRes.ok.injEq,
                        Prod.mk.injEq] at h
                      obtain ⟨rfl, rfl⟩ := h
                      obtain ⟨hlen, hspec⟩ := ih _ _ _ _ _ hr
                      refine ⟨by simp [hlen], ?_⟩
                      intro i hi hi2
                      match i with
                      | 0 =>
                          constructor
                          · refine ⟨vstr, ?_⟩
                            simp [Field.fname]
                          · intro hc
                            simp only [List.get, Field.fname, hlook] at hc
                            simp at hc
                      | i + 1 =>
                          have hi3 : i < rest2.length := by simpa using hi
                          have hi4 : i < rest.length := by simpa using hi2
                          exact hspec i hi3 hi4

/-! ### Claim theorems: type checker -/

/-- C1 (counterexample): a map literal whose keys exactly equal the
declared field names can still receive diagnostics — with field `a`
declared `string` and supplied as an integer literal, structural
validation appends a type-mismatch diagnostic, so validation is not
independent of the kinds of the field values. -/
theorem exactKeys_can_still_diagnose :
    ([(Expr.strLit "a", Expr.intLit 1)].map (fun q => keyName q.1) = [some "a"]
      ∧ (TypeDef.mk "T" [Field.mk "a" "string" none]).fields.map Field.fname
          = ["a"])
    ∧ checkMapAgainstType [(Expr.strLit "a", Expr.intLit 1)]
        (TypeDef.mk "T" [Field.mk "a" "string" none]) "x"
        = [Diag.typeMismatch "x" "a" "string" "int"] := by
  decide

/-- C1 (amended): when the literal's keys cover every declared field
name, structural validation appends no missing-field diagnostic at the
assignment path itself; diagnostics determined by the kinds of the field
values (type mismatch, expected-nested-object, and missing fields of
nested literals, which carry a strictly longer path) may still be
appended. -/
theorem checkMap_coveredKeys_noMissingAtPath (prs : List (Expr × Expr))
    (td : TypeDef) (path : String)
    (hcov : ∀ fl ∈ td.fields, ∃ q ∈ prs, keyName q.1 = some fl.fname)
    (f : String) :
    Diag.missingField path f ∉ checkMapAgainstType prs td path := by
  cases td with
  | mk nme fields =>
      rw [checkMapAgainstType]
      apply no_missing_at_path
      intro fl hfl
      obtain ⟨q, hq, hqn⟩ := hcov fl (by simpa [TypeDef.fields] using hfl)
      intro hnone
      rw [lookA_providedOf_none] at hnone
      exact hnone q hq hqn

/-- Witness for the amended C1 at a concrete covered literal. -/
theorem checkMap_coveredKeys_noMissingAtPath_witness :
    (∀ fl ∈ (TypeDef.mk "T" [Field.mk "a" "string" none]).fields,
        ∃ q ∈ [(Expr.strLit "a", Expr.intLit 1)], keyName q.1 = some fl.fname)
    ∧ Diag.missingField "x" "a" ∉
        checkMapAgainstType [(Expr.strLit "a", Expr.intLit 1)]
          (TypeDef.mk "T" [Field.mk "a" "string" none]) "x" :=
  ⟨by decide,
   checkMap_coveredKeys_noMissingAtPath [(Expr.strLit "a", Expr.intLit 1)]
     (TypeDef.mk "T" [Field.mk "a" "string" none]) "x" (by decide) "a"⟩

/-- C2: removing any one declared field from a literal that covers all
of a definition's fields makes validation report exactly that field as
missing, and the rendered message contains the assignment path and the
field's name. -/
theorem removed_field_reported (prs : List (Expr × Expr)) (td : TypeDef)
    (path f : String)
    (hcov : ∀ fl ∈ td.fields, ∃ q ∈ prs, keyName q.1 = some fl.fname)
    (hf : f ∈ td.fields.map Field.fname) :
    Diag.missingField path f ∈ checkMapAgainstType (removeField f prs) td path
    ∧ renderDiag (Diag.missingField path f)
        = path ++ ": missing field \x27" ++ f ++ "\x27" := by
  refine ⟨?_, rfl⟩
  cases td with
  | mk nme fields =>
      rw [checkMapAgainstType]
      exact missing_mem_checkFields (providedOf (removeField f prs)) fields path f
        (providedOf_removeField f prs) (by simpa [TypeDef.fields] using hf)

/-- Witness for C2 at a concrete two-field type with field b removed. -/
theorem removed_field_reported_witness :
    (∀ fl ∈ (TypeDef.mk "T"
        [Field.mk "a" "int" none, Field.mk "b" "string" none]).fields,
      ∃ q ∈ [(Expr.strLit "a", Expr.intLit 1), (Expr.strLit "b", Expr.strLit "x")],
        keyName q.1 = some fl.fname)
    ∧ Diag.missingField "u" "b" ∈
        checkMapAgainstType
          (removeField "b"
            [(Expr.strLit "a", Expr.intLit 1), (Expr.strLit "b", Expr.strLit "x")])
          (TypeDef.mk "T" [Field.mk "a" "int" none, Field.mk "b" "string" none])
          "u" :=
  ⟨by decide,
   (removed_field_reported
     [(Expr.strLit "a", Expr.intLit 1), (Expr.strLit "b", Expr.strLit "x")]
     (TypeDef.mk "T" [Field.mk "a" "int" none, Field.mk "b" "string" none])
     "u" "b" (by decide) (by decide)).1⟩

/-- C5: a call whose callee identifier is registered with an
N-parameter signature and which supplies M ≠ N arguments produces
exactly one arity diagnostic for that call — the head of the
diagnostic list, citing N (expected) and M (actual), with the rendered
message containing both numbers — followed only by the diagnostics of
the recursive traversal of the arguments. -/
theorem call_arity_diagnostic (tds : List (String × TypeDef))
    (fsigs : List (String × FuncSig)) (vts : List (String × String))
    (f : String) (args : List Expr) (ctx : String) (sig : FuncSig)
    (hsig : lookA fsigs f = some sig)
    (hne : args.length ≠ sig.paramOrder.length) :
    checkExpr tds fsigs vts (.callE (.ident f) args) ctx
      = Diag.arity ctx f sig.paramOrder.length args.length
          :: checkExprList tds fsigs vts args ctx
    ∧ renderDiag (Diag.arity ctx f sig.paramOrder.length args.length)
        = ctx ++ ": function " ++ f ++ " expects " ++
            toString sig.paramOrder.length ++ " args, got " ++
            toString args.length := by
  refine ⟨?_, rfl⟩
  simp [checkExpr, hsig, hne]

/-- Witness for C5: a 1-parameter function called with 0 arguments. -/
theorem call_arity_diagnostic_witness :
    checkExpr [] [("f", FuncSig.mk ["x"] [("x", "int")] "")] []
        (.callE (.ident "f") []) "c" = [Diag.arity "c" "f" 1 0] := by
  rw [(call_arity_diagnostic [] [("f", FuncSig.mk ["x"] [("x", "int")] "")] []
    "f" [] "c" (FuncSig.mk ["x"] [("x", "int")] "") (by decide) (by decide)).1]
  decide

/-- C6 (counterexample): the expression pass does not visit every
expression inside function-literal bodies. In this program `u` has the
registered type `T` which lacks field `bad`, and `u.bad` occurs inside a
function body under a return statement; CheckProgram reports nothing,
although checkExpr would flag exactly this access if it were visited
(second conjunct, using the registries this program builds). -/
theorem funcBody_return_member_unchecked :
    CheckProgram
        [ .typeDefS (.mk "T" [.mk "a" "int" none]),
          .letS "u" "T" (.intLit 0),
          .letS "g" "" (.funcLit (some "g") [] [] ""
            [.returnS (.member (.ident "u") "bad")]) ] = []
    ∧ checkExpr [("T", TypeDef.mk "T" [Field.mk "a" "int" none])]
        [("g", FuncSig.mk [] [] "")] [("u", "T")]
        (.member (.ident "u") "bad") "g"
        = [Diag.unknownField "g" "bad" "T"] := by
  decide

/-- C6 (amended): inside a function-literal body the checker visits
exactly the expressions of expression statements — expressions under
return statements, let/const statements or nested blocks in the body
are not traversed. -/
theorem funcLit_visits_only_exprStmts (tds : List (String × TypeDef))
    (fsigs : List (String × FuncSig)) (vts : List (String × String))
    (nm : Option String) (ps : List String) (pts : List (String × String))
    (rt : String) (body : List Stmt) (ctx : String) :
    checkExpr tds fsigs vts (.funcLit nm ps pts rt body) ctx
      = ((body.filterMap stmtTopExpr).map
          (fun e => checkExpr tds fsigs vts e ctx)).flatten := by
  rw [checkExpr]
  induction body with
  | nil => simp [checkBodyStmts]
  | cons s rest ih => cases s <;> simp [checkBodyStmts, stmtTopExpr, ih]

/-- C8: every diagnostic structural validation emits names a declared
field of the type definition (top-level or nested); in particular no
diagnostic ever concerns an extra literal key that is not among the
declared fields — width-permissive checking. -/
theorem diagnostics_name_declared_fields (prs : List (Expr × Expr))
    (td : TypeDef) (path : String) :
    ∀ d ∈ checkMapAgainstType prs td path,
      diagFieldName d ∈ allFieldNames td := by
  cases td with
  | mk nme fields =>
      intro d hd
      rw [checkMapAgainstType] at hd
      rw [allFieldNames]
      exact fieldName_mem_fields (sizeOf fields) fields le_rfl
        (providedOf prs) path d hd

/-- Witness for C8 at a concrete literal with an extra key. -/
theorem diagnostics_name_declared_fields_witness :
    Diag.missingField "x" "a" ∈
        checkMapAgainstType [(Expr.strLit "zzz", Expr.intLit 7)]
          (TypeDef.mk "T" [Field.mk "a" "int" none]) "x"
    ∧ diagFieldName (Diag.missingField "x" "a")
        ∈ allFieldNames (TypeDef.mk "T" [Field.mk "a" "int" none]) :=
  ⟨by decide,
   diagnostics_name_declared_fields [(Expr.strLit "zzz", Expr.intLit 7)]
     (TypeDef.mk "T" [Field.mk "a" "int" none]) "x"
     (Diag.missingField "x" "a") (by decide)⟩

/-- C10: the unknown-field check fires only when the accessed object is
a plain identifier: a member access whose object is itself a member
access, or an index expression, contributes no diagnostic of its own —
the checker's result on the outer access equals its result on the inner
object expression. -/
theorem outer_member_access_unflagged (tds : List (String × TypeDef))
    (fsigs : List (String × FuncSig)) (vts : List (String × String))
    (o l i : Expr) (p q ctx : String) :
    (checkExpr tds fsigs vts (.member (.member o p) q) ctx
        = checkExpr tds fsigs vts (.member o p) ctx)
    ∧ (checkExpr tds fsigs vts (.member (.indexE l i) q) ctx
        = checkExpr tds fsigs vts (.indexE l i) ctx) := by
  constructor
  · simp [checkExpr]
  · simp [checkExpr]

/-- C7 (code bug): with the same import directive occurring twice in one
file, the first processing step splices the module's content at BOTH
occurrences (strings.Replace with count -1 replaces every occurrence of
the match text), so the module's text appears twice in the preprocessed
output — contradicting the visited-set guarantee that each physical
file is inlined at most once (and the function's own comment, "It
avoids duplicating the same module by tracking visited files"). -/
theorem duplicate_directive_inlined_twice :
    preprocessImports 2 [("/w/m.psk", [Piece.text "MOD"])] "/w/main.psk"
        [Piece.imp ⟨"a", "m"⟩, Piece.text "X", Piece.imp ⟨"a", "m"⟩]
      = some ([Piece.text "\n// begin inlined module: m\n",
               Piece.text "MOD",
               Piece.text "\n// end inlined module: m\n",
               Piece.text "X",
               Piece.text "\n// begin inlined module: m\n",
               Piece.text "MOD",
               Piece.text "\n// end inlined module: m\n"],
              ["/w/m.psk"])
    ∧ ∀ r ∈ (preprocessImports 2 [("/w/m.psk", [Piece.text "MOD"])] "/w/main.psk"
        [Piece.imp ⟨"a", "m"⟩, Piece.text "X", Piece.imp ⟨"a", "m"⟩]),
        r.1.count (Piece.text "MOD") = 2 := by
  decide

/-- C3 (counterexample): for a `const` with an explicit declared type
and a map-literal value, code generation does not emit fields in the
type definition's declared order and emits no placeholder for a missing
declared field: with type T declared as fields b, a, z (registered in
the generator) and literal keys a, b, the emitted construction orders
the fields by sorted literal key (A before B, unlike the declared b
before a) and omits z entirely. -/
theorem const_ignores_declared_order :
    (genConstStatement 10 gWithT "c" "T"
        (.mapLit [(.strLit "a", .intLit 2), (.strLit "b", .intLit 1)])).strPart
      = some "const c = T\x7bA: 2, B: 1\x7d\n"
    ∧ (some "const c = T\x7bA: 2, B: 1\x7d\n"
        ≠ some "const c = T\x7bB: 1, A: 2, Z: nil\x7d\n")
    ∧ tdBAZ.fields.map Field.fname = ["b", "a", "z"] := by
  refine ⟨by decide, by decide, by decide⟩

/-- C3 (amended): for a `let` with an explicit declared type that is
registered in the generator and a map-literal value, the emitted record
construction lists one entry per declared field in the type
definition's declared order, a declared field absent from the literal
is emitted with the `nil` placeholder, and generation succeeds with no
possibility of a diagnostic; a `const` (or a `let` whose declared type
is not registered) instead emits the captured literal pairs in sorted
key order with no placeholders. -/
theorem genLet_declaredOrder (fuel : Nat) (g : CGen) (nme typeName : String)
    (prs : List (Expr × Expr)) (td : TypeDef) (fs : List String) (gf : CGen)
    (htn : typeName ≠ "")
    (hkeys : ∀ p ∈ prs, (keyName p.1).isSome = true)
    (hfuel : prs.length < fuel)
    (htd : lookA g.typeDefs typeName = some td)
    (hfields : genLetFields fuel g td.fields
        (buildKV (sortByKey (simpleKeys prs))) = .ok (fs, gf)) :
    genLetStatement (fuel + 1) g nme typeName (.mapLit prs)
      = .ok ("var " ++ nme ++ " " ++ typeName ++ " = " ++ typeName ++
              "\x7b" ++ joinSep ", " fs ++ "\x7d\n" ++ tabs gf.indentlevel ++
              "_ = " ++ nme ++ "\n",
             { gf with variableTypes := updA gf.variableTypes nme typeName })
    ∧ fs.length = td.fields.length
    ∧ ∀ i (hi : i < fs.length) (hi2 : i < td.fields.length),
        (∃ v, fs.get ⟨i, hi⟩
          = capFirst (td.fields.get ⟨i, hi2⟩).fname ++ ": " ++ v)
        ∧ ((∀ p ∈ prs, keyName p.1 ≠ some (td.fields.get ⟨i, hi2⟩).fname) →
            fs.get ⟨i, hi⟩
              = capFirst (td.fields.get ⟨i, hi2⟩).fname ++ ": nil") := by
  obtain ⟨hlen, hspec⟩ := genLetFields_spec td.fields fuel g _ fs gf hfields
  refine ⟨?_, hlen, ?_⟩
  · simp only [genLetStatement, htn, ne_eq, not_false_iff, if_true,
      genLetKeys_simple prs fuel g hfuel hkeys, gbind_ok, htd, hfields,
      gpure_eq]
  · intro i hi hi2
    refine ⟨(hspec i hi hi2).1, fun habs => ?_⟩
    apply (hspec i hi hi2).2
    rw [lookA_buildKV_none]
    intro q hq
    have hq2 : q ∈ simpleKeys prs := (sortByKey_perm _).mem_iff.mp hq
    simp only [simpleKeys, List.mem_map] at hq2
    obtain ⟨p, hp, rfl⟩ := hq2
    have hks := hkeys p hp
    have hkn := habs p hp
    cases hkey : keyName p.1 with
    | none => rw [hkey] at hks; simp at hks
    | some k =>
        rw [hkey] at hkn
        simp only [hkey, Option.getD_some]
        intro hkf
        exact hkn (by rw [hkf])

/-- Witness for the amended C3: type T (fields b, a, z) with literal
keys a, b — fields emitted as B, A, Z in declared order, Z getting the
nil placeholder. -/
theorem genLet_declaredOrder_witness :
    genLetStatement 11 gWithT "x" "T"
        (.mapLit [(.strLit "a", .intLit 2), (.strLit "b", .intLit 1)])
      = .ok ("var x T = T\x7bB: 1, A: 2, Z: nil\x7d\n\t_ = x\n",
             { gWithT with variableTypes := [("x", "T")] }) := by
  have h := genLet_declaredOrder 10 gWithT "x" "T"
    [(.strLit "a", .intLit 2), (.strLit "b", .intLit 1)] tdBAZ
    ["B: 1", "A: 2", "Z: nil"] gWithT
    (by decide) (by decide) (by decide) rfl rfl
  rw [h.1]
  rfl

/-- C9: builtin call lowering is total exactly under its fixed argument
shapes. With at least one (capturable) argument, `server.serve` and
`server.static` succeed; `server.route` with a path argument and a
function-literal handler whose body generates succeeds (both the
parameterless and the parameterized handler forms). A call violating
the shape — `route`, `serve` or `static` with no arguments, or `route`
whose second argument is not a function literal — is an abrupt failure
(Go panic, `GRes.crash`); no diagnostic channel exists in the
generator. -/
theorem builtin_fixed_shape :
    (∀ (fu : Nat) (g : CGen) (a : Expr) (arest : List Expr) (s : String)
        (g2 : CGen),
      genExpression fu { g with requiresHttp := true, requiresLog := true } a
          = .ok (s, g2) →
      genCallExpression (fu + 1) g (.member (.ident "server") "serve")
          (a :: arest)
        = .ok ("log.Fatal(http.ListenAndServe(\":" ++ s ++ "\", nil))", g2))
    ∧ (∀ (fu : Nat) (g : CGen) (a : Expr) (arest : List Expr) (s : String)
        (g2 : CGen),
      genExpression fu { g with requiresHttp := true } a = .ok (s, g2) →
      genCallExpression (fu + 1) g (.member (.ident "server") "static")
          (a :: arest)
        = .ok ("http.Handle(\"/\", http.FileServer(http.Dir(" ++ s ++ ")))", g2))
    ∧ (∀ (fu : Nat) (g : CGen) (v : String) (nm : Option String)
        (pts : List (String × String)) (rt : String) (body : List Stmt)
        (arest : List Expr) (bt : String) (hgf : CGen),
      genRouteBodySimple (fu + 1) (newGenerator (g.indentlevel + 1)) body
          = .ok (bt, hgf) →
      genCallExpression (fu + 3) g (.member (.ident "server") "route")
          (.strLit v :: .funcLit nm [] pts rt body :: arest)
        = .ok ("http.HandleFunc(" ++ ("\"" ++ v ++ "\"") ++
                ", wrapHandler(func(w http.ResponseWriter, r *http.Request) \x7b" ++
                "\n" ++ bt ++ tabs hgf.indentlevel ++
                "fmt.Fprint(w, returnValue)\n" ++ tabs g.indentlevel ++ "\x7d)",
               { g with requiresHttp := true, requiresFmt := true }))
    ∧ (∀ (fu : Nat) (g : CGen),
      genCallExpression (fu + 2) g (.member (.ident "server") "route") []
        = .crash)
    ∧ (∀ (fu : Nat) (g : CGen),
      genCallExpression (fu + 1) g (.member (.ident "server") "serve") []
        = .crash)
    ∧ (∀ (fu : Nat) (g : CGen) (v : String) (b : Expr) (arest : List Expr),
      b.isFuncLit = false →
      genCallExpression (fu + 3) g (.member (.ident "server") "route")
          (.strLit v :: b :: arest) = .crash)
    ∧ (∀ (fu : Nat) (g : CGen),
      genCallExpression (fu + 1) g (.member (.ident "server") "static") []
        = .crash)
    ∧ (∀ (fu : Nat) (g : CGen) (v : String) (fnm : Option String)
        (hparams : List String) (hpts : List (String × String)) (hrt : String)
        (body : List Stmt) (arest : List Expr) (bt : String) (hgf : CGen),
      hparams ≠ [] →
      genRouteBodyRich (fu + 1) (newGenerator (g.indentlevel + 1)) body
          = .ok (bt, hgf) →
      (genCallExpression (fu + 3) g (.member (.ident "server") "route")
          (.strLit v :: .funcLit fnm hparams hpts hrt body :: arest)).isOk
        = true) := by
  refine ⟨?_, ?_, ?_, ?_, ?_, ?_, ?_, ?_⟩
  · intro fu g a arest s g2 h
    simp [genCallExpression, h]
  · intro fu g a arest s g2 h
    simp [genCallExpression, h]
  · intro fu g v nm pts rt body arest bt hgf h
    simp [genCallExpression, genRouteExpression, genExpression, h]
  · intro fu g
    simp [genCallExpression, genRouteExpression]
  · intro fu g
    simp [genCallExpression]
  · intro fu g v b arest hb
    cases b <;> simp [Expr.isFuncLit] at hb <;>
      simp [genCallExpression, genRouteExpression, genExpression]
  · intro fu g
    simp [genCallExpression]
  · intro fu g v fnm hparams hpts hrt body arest bt hgf hp hb
    simp only [genCallExpression, genRouteExpression, genExpression, gbind_ok,
      gpure_eq, hp, ne_eq, not_false_iff, if_false, if_true]
    by_cases hne :
        routeParamNames (routeParts (trimChar ("\"" ++ v ++ "\"") '"')) ≠ [] <;>
      simp only [hne, ne_eq, not_false_iff, not_true, if_true, if_false,
        not_not] <;>
      rw [hb] <;>
      simp [GRes.isOk]

/-- Witness for C9: a well-shaped serve call succeeding, a route call
with no arguments crashing, and a route call whose second argument is an
integer literal crashing. -/
theorem builtin_fixed_shape_witness :
    genCallExpression 2 (newGenerator 1) (.member (.ident "server") "serve")
        [.intLit 8080]
      = .ok ("log.Fatal(http.ListenAndServe(\":" ++ "8080" ++ "\", nil))",
             { newGenerator 1 with requiresHttp := true, requiresLog := true })
    ∧ genCallExpression 2 (newGenerator 1) (.member (.ident "server") "route") []
        = .crash
    ∧ genCallExpression 4 (newGenerator 1) (.member (.ident "server") "route")
        [.strLit "/", .intLit 3] = .crash
    ∧ (genCallExpression 4 (newGenerator 1) (.member (.ident "server") "route")
        [.strLit "/users/:id",
         .funcLit none ["req"] [] "" [.returnS (.ident "req")]]).isOk = true :=
  ⟨builtin_fixed_shape.1 1 (newGenerator 1) (.intLit 8080) [] "8080"
      { newGenerator 1 with requiresHttp := true, requiresLog := true } rfl,
   builtin_fixed_shape.2.2.2.1 0 (newGenerator 1),
   builtin_fixed_shape.2.2.2.2.2.1 1 (newGenerator 1) "/" (.intLit 3) []
     (by decide),
   builtin_fixed_shape.2.2.2.2.2.2.2 1 (newGenerator 1) "/users/:id" none
     ["req"] [] "" [.returnS (.ident "req")] []
     "\t\treturnValue := interface\x7b\x7d(req)\n" (newGenerator 2)
     (by decide) rfl⟩

/-- C4: for a `server.route` call whose path string literal contains a
`:name` segment and whose handler takes a parameter, the registration
pattern is the quoted static prefix of the path up to (and including a
trailing slash after) the nonempty segments preceding the first dynamic
segment, and for every template segment i of the form `:name` the
generated handler contains the line binding the request path segment at
the same positional index i (of the slash-split, slash-trimmed request
path) into the parameters map under key `name`. -/
theorem route_dynamic_registration
    (fu : Nat) (g : CGen) (v : String) (fnm : Option String)
    (hparams : List String) (hpts : List (String × String)) (hrt : String)
    (hbody : List Stmt) (arest : List Expr) (out : String) (gout : CGen)
    (segs rest2 : List String) (pname : String)
    (htrim : trimChar ("\"" ++ v ++ "\"") '"' = v)
    (hsplit : routeParts v = segs ++ (":" ++ pname) :: rest2)
    (hstatic : ∀ s ∈ segs, strHasPre s ":" = false)
    (hp : hparams ≠ [])
    (hok : genRouteExpression (fu + 2) g
        (.strLit v :: .funcLit fnm hparams hpts hrt hbody :: arest)
        = .ok (out, gout)) :
    (routeRegPrefix (routeParts v)
      = if segs.filter (fun s => s ≠ "") = [] then "/"
        else "/" ++ joinSep "/" (segs.filter (fun s => s ≠ "")) ++ "/")
    ∧ strHasPre out ("http.HandleFunc(" ++
        ("\"" ++ routeRegPrefix (routeParts v) ++ "\"") ++
        ", func(w http.ResponseWriter, r *http.Request) \x7b") = true
    ∧ ∀ (i : Nat) (hi : i < (routeParts v).length) (nm2 : String),
        (routeParts v).get ⟨i, hi⟩ = ":" ++ nm2 →
        strOccurs (tabs (g.indentlevel + 1) ++ routeParamAssign i nm2 ++ "\n")
          out := by
  have hmem := routeParamNames_has segs pname rest2
  rw [← hsplit] at hmem
  have hne : routeParamNames (routeParts v) ≠ [] := List.ne_nil_of_mem hmem
  refine ⟨by rw [hsplit]; exact routeRegPrefix_eq segs rest2 pname hstatic, ?_, ?_⟩
  all_goals
    simp only [genRouteExpression, genExpression, gbind_ok, gpure_eq, hp,
      ne_eq, not_false_iff, if_false, if_true, htrim, hne] at hok
  · cases hb : genRouteBodyRich (fu + 1) (newGenerator (g.indentlevel + 1))
        hbody with
    | crash => rw [hb] at hok; simp at hok
    | fuelOut => rw [hb] at hok; simp at hok
    | ok r =>
        obtain ⟨bt, hgf⟩ := r
        rw [hb] at hok
        simp only [gbind_ok, gpure_eq, GRes.ok.injEq, Prod.mk.injEq] at hok
        obtain ⟨hout, hgout⟩ := hok
        rw [← hout]
        apply strHasPre_append_left
        apply strHasPre_append_left
        apply strHasPre_append_left
        apply strHasPre_append_left
        apply strHasPre_append_left
        apply strHasPre_append_left
        apply strHasPre_append_left
        apply strHasPre_append_left
        apply strHasPre_append_left
        apply strHasPre_append_left
        exact strHasPre_self _
  · cases hb : genRouteBodyRich (fu + 1) (newGenerator (g.indentlevel + 1))
        hbody with
    | crash => rw [hb] at hok; simp at hok
    | fuelOut => rw [hb] at hok; simp at hok
    | ok r =>
        obtain ⟨bt, hgf⟩ := r
        rw [hb] at hok
        simp only [gbind_ok, gpure_eq, GRes.ok.injEq, Prod.mk.injEq] at hok
        obtain ⟨hout, hgout⟩ := hok
        intro i hi nm2 hget
        rw [← hout]
        apply strOccurs_append_left
        apply strOccurs_append_left
        apply strOccurs_append_left
        apply strOccurs_append_left
        apply strOccurs_append_left
        apply strOccurs_append_left
        apply strOccurs_append_left
        apply strOccurs_append_right
        apply strOccurs_append_left
        apply strOccurs_append_left
        apply strOccurs_append_right
        exact strOccurs_join_map _ _ _
          (assign_mem (routeParts v) i hi nm2 hget)
/-- Witness for C4, the spec scenario: path "/users/:id" registers
under prefix "/users/" and the emitted handler binds path segment 1
under key "id". -/
theorem route_dynamic_registration_witness :
    routeRegPrefix (routeParts "/users/:id") = "/users/"
    ∧ routeParamAssign 1 "id"
        = "if len(pathParts) > 1 \x7b params[\"id\"] = pathParts[1] \x7d"
    ∧ ∃ out gout,
        genRouteExpression 4 (newGenerator 1)
            [.strLit "/users/:id",
             .funcLit none ["req"] [] "" [.returnS (.ident "req")]]
          = .ok (out, gout)
        ∧ strHasPre out ("http.HandleFunc(" ++
            ("\"" ++ routeRegPrefix (routeParts "/users/:id") ++ "\"") ++
            ", func(w http.ResponseWriter, r *http.Request) \x7b") = true
        ∧ strOccurs (tabs 2 ++ routeParamAssign 1 "id" ++ "\n") out := by
  obtain ⟨h1, h2, h3⟩ := route_dynamic_registration 2 (newGenerator 1)
    "/users/:id" none ["req"] [] "" [.returnS (.ident "req")] [] _ _
    ["users"] [] "id" (by decide) (by decide) (by decide) (by decide) rfl
  exact ⟨by decide, by decide, _, _, rfl, h2, h3 1 (by decide) "id" (by decide)⟩

end Pisuke
